import Mathlib

/-!
# Invoice-SVC: configuration resolution and the HTTP contract around it

A shallow embedding of `src/index.js`.  The service functions
(`fileExists`, `getDefaultInvoiceConfig`, `getInvoiceConfig`, the inner
`getCnfigFromPayload`, `schema`, `validator`, the `POST /` handler and the
error middleware) are translated from the source.  The library calls they
make (`lodash.merge`, `date-fns` 1.x, `joi`, the `express` response object,
`Number.prototype.toFixed`, the methods of `Date`) are modelled on JSON data
and on time values by their documented behaviour; whatever belongs to the
platform (the clock, the time zone, `Intl`, the module files on disk, the
template and PDF pipeline) or differs between releases of a library is a field
of `Env`.  Console output is left out.
-/

set_option autoImplicit false

namespace InvoiceSvc

/-! ## JSON values -/

mutual
/-- A JavaScript value as `JSON.parse` produces it.  A number is the exact
rational value of the double.  An array is an object whose `isArr` flag is set
and whose listed properties are its elements, under the index strings `"0"`,
`"1"`, ...: this is how property access and `lodash` see them.  The `length` of
an array is not a listed property; what `lodash.merge` does with a `length` is
in `arrayLikeLength` and `assignProp`.  `undefined` is the absence of a value
(`Option JVal`). -/
inductive JVal where
  | null
  | bool (b : Bool)
  | num (q : ℚ)
  | str (s : String)
  | obj (isArr : Bool) (props : JProps)
  deriving DecidableEq
/-- The own enumerable properties of an object, in the order JavaScript
enumerates them. -/
inductive JProps where
  | nil
  | cons (key : String) (val : JVal) (rest : JProps)
  deriving DecidableEq
end

/-- Read `object[key]`; `none` is `undefined`. -/
def JProps.get : JProps → String → Option JVal
  | .nil, _ => none
  | .cons k v rest, key => if k = key then some v else rest.get key

/-- Assign `object[key] = v`: overwrite in place, or append a new property. -/
def JProps.set : JProps → String → JVal → JProps
  | .nil, key, v => .cons key v .nil
  | .cons k w rest, key, v =>
    if k = key then .cons k v rest else .cons k w (rest.set key v)

/-- The property names of an object. -/
def JProps.keys : JProps → List String
  | .nil => []
  | .cons k _ rest => k :: rest.keys

/-- An object literal from a list of fields. -/
def JProps.ofList : List (String × JVal) → JProps
  | [] => .nil
  | (k, v) :: rest => .cons k v (JProps.ofList rest)

/-- The properties with index keys `i`, `i+1`, ... of an array literal. -/
def JProps.ofArrayFrom : Nat → List JVal → JProps
  | _, [] => .nil
  | i, v :: rest => .cons (Nat.repr i) v (JProps.ofArrayFrom (i + 1) rest)

/-- A plain object literal. -/
def JVal.object (fields : List (String × JVal)) : JVal :=
  .obj false (JProps.ofList fields)

/-- An array literal. -/
def JVal.array (elems : List JVal) : JVal :=
  .obj true (JProps.ofArrayFrom 0 elems)

/-- Property access on any value: primitives have no own JSON properties. -/
def JVal.get : JVal → String → Option JVal
  | .obj _ props, key => props.get key
  | _, _ => none

/-- The own properties of a value (none for a primitive). -/
def JVal.props : JVal → JProps
  | .obj _ props => props
  | _ => .nil

/-- Follow a key path `a.b.c` from an object. -/
def JProps.getPath : JProps → List String → Option JVal
  | _, [] => none
  | ps, [k] => ps.get k
  | ps, k :: rest =>
    match ps.get k with
    | some (.obj _ inner) => inner.getPath rest
    | _ => none

/-- A scalar is a value that is not an object or array (`lodash.isObject`
is false). -/
def JVal.isScalar : JVal → Bool
  | .obj _ _ => false
  | _ => true

/-- JavaScript truthiness. -/
def JVal.truthy : JVal → Bool
  | .null => false
  | .bool b => b
  | .num q => q != 0
  | .str s => s != ""
  | .obj _ _ => true

mutual
/-- No object anywhere in the value has two properties of the same name:
true of every JavaScript object. -/
def JVal.wf : JVal → Bool
  | .obj _ props => props.wf
  | _ => true
/-- See `JVal.wf`. -/
def JProps.wf : JProps → Bool
  | .nil => true
  | .cons k v rest => !(rest.keys.contains k) && v.wf && rest.wf
end

mutual
/-- No object anywhere in the value has a property named `length` or
`__proto__`, the two names that `lodash.merge` does not treat as plain data. -/
def JVal.ordinary : JVal → Bool
  | .obj _ props => props.ordinary
  | _ => true
/-- See `JVal.ordinary`. -/
def JProps.ordinary : JProps → Bool
  | .nil => true
  | .cons k v rest => k != "length" && k != "__proto__" && v.ordinary && rest.ordinary
end

/-- Value of a decimal digit character. -/
def digitValue (c : Char) : Option Nat :=
  if c.isDigit then some (c.toNat - 48) else none

/-- The number a string of decimal digits writes. -/
def digitsValue (cs : List Char) : Option Nat :=
  cs.foldl (fun acc c =>
    match acc, digitValue c with
    | some a, some d => some (10 * a + d)
    | _, _ => none) (some 0)

/-- The array index a property name denotes: a canonical decimal numeral below
`2^32 - 1`. -/
def isArrayIndex (key : String) : Option Nat :=
  match key.data with
  | [] => none
  | c :: rest =>
    if c = '0' ∧ rest ≠ [] then none
    else
      match digitsValue (c :: rest) with
      | some i => if i < 4294967295 then some i else none
      | none => none

/-- What is left of an array whose `length` is set to `n`: the elements at
an index from `n` on are deleted. -/
def JProps.dropIndicesFrom (n : Nat) : JProps → JProps
  | .nil => .nil
  | .cons k v rest =>
    match isArrayIndex k with
    | some i =>
      if n ≤ i then rest.dropIndicesFrom n else .cons k v (rest.dropIndicesFrom n)
    | none => .cons k v (rest.dropIndicesFrom n)

/-- The elements `copyArray` takes from an array-like object of length `n`:
the properties at an index below `n`. -/
def JProps.indicesBelow (n : Nat) : JProps → JProps
  | .nil => .nil
  | .cons k v rest =>
    match isArrayIndex k with
    | some i =>
      if i < n then .cons k v (rest.indicesBelow n) else rest.indicesBelow n
    | none => rest.indicesBelow n

/-- The `length` that makes a plain object array-like for lodash (`isLength`):
an own `length` that is a non-negative integer up to `2^53 - 1`. -/
def arrayLikeLength (props : JProps) : Option Nat :=
  match props.get "length" with
  | some (.num q) =>
    if q.den = 1 ∧ 0 ≤ q.num ∧ q.num ≤ 9007199254740991 then some q.num.toNat else none
  | _ => none

/-! ## Errors -/

/-- A thrown JavaScript error: the fields the service reads, and the own
enumerable properties that `JSON.stringify` would print (none for a plain
`Error`, whose `message` and `stack` are not enumerable). -/
structure JSError where
  name : String
  message : String
  isJoi : Bool := false
  statusCode : Option JVal := none
  status : Option JVal := none
  code : Option JVal := none
  enumerable : JProps := .nil
  deriving DecidableEq

deriving instance DecidableEq for Except

/-- The constant `InvoiceNotFound = new Error(...)`. -/
def InvoiceNotFound : JSError :=
  { name := "Error", message := "Invoice template not found" }

/-- What Node throws when `require` finds no module. -/
def moduleNotFound (path : String) : JSError :=
  { name := "Error", message := "Cannot find module " ++ path,
    code := some (.str "MODULE_NOT_FOUND") }

/-- The `TypeError` of calling `toFixed` on a value that is not a number. -/
def toFixedTypeError : JSError :=
  { name := "TypeError", message := "requestPayload.price.toFixed is not a function" }

/-- The `TypeError` of reading `toFixed` from `undefined` or `null`. -/
def toFixedOfNothing (what : String) : JSError :=
  { name := "TypeError", message := "Cannot read property \x27toFixed\x27 of " ++ what }

/-- The `RangeError` of setting the `length` of an array to something that is
not an array length, or of creating an array of such a length. -/
def invalidArrayLength : JSError :=
  { name := "RangeError", message := "Invalid array length" }

/-- The errors `Intl.NumberFormat` throws. -/
inductive IntlError where
  | rangeError (message : String)
  | typeError (message : String)
  deriving DecidableEq

/-- The error object of an `Intl` failure. -/
def IntlError.toError : IntlError → JSError
  | .rangeError message => { name := "RangeError", message := message }
  | .typeError message => { name := "TypeError", message := message }

/-! ## Time values

A time value is written by the calendar day it falls on and the milliseconds
since the start of that day.  Read in UTC this is the time value `t` of a
`Date`; `LocalTime(t)` is written the same way. -/

/-- A time value: year, month (0 to 11), day of the month, and milliseconds of
the day. -/
structure JSDate where
  year : Int
  month : Nat
  date : Nat
  ms : Nat := 0
  deriving DecidableEq

/-- Milliseconds in a day. -/
def msPerDay : Nat := 86400000

/-- Gregorian leap years. -/
def isLeapYear (y : Int) : Bool := (y % 4 == 0 && y % 100 != 0) || y % 400 == 0

/-- Number of days of month `m` (0 = January) of year `y`. -/
def monthLength (y : Int) (m : Nat) : Nat :=
  match m with
  | 1 => if isLeapYear y then 29 else 28
  | 3 => 30
  | 5 => 30
  | 8 => 30
  | 10 => 30
  | _ => 31

/-- The same time of day on the calendar day after `t`. -/
def JSDate.nextDay (t : JSDate) : JSDate :=
  if t.date < monthLength t.year t.month then { t with date := t.date + 1 }
  else if t.month < 11 then { t with month := t.month + 1, date := 1 }
  else { t with year := t.year + 1, month := 0, date := 1 }

/-- The same time of day on the calendar day before `t`. -/
def JSDate.prevDay (t : JSDate) : JSDate :=
  if 1 < t.date then { t with date := t.date - 1 }
  else if 0 < t.month then
    { t with month := t.month - 1, date := monthLength t.year (t.month - 1) }
  else { t with year := t.year - 1, month := 11, date := 31 }

/-- The time value `days` days after `t` (before it, when negative). -/
def JSDate.addDays (t : JSDate) (days : Int) : JSDate :=
  if 0 ≤ days then JSDate.nextDay^[days.toNat] t else JSDate.prevDay^[(-days).toNat] t

/-- The time value `delta` milliseconds after `t` (before it, when negative). -/
def JSDate.addMs (t : JSDate) (delta : Int) : JSDate :=
  let total : Int := (t.ms : Int) + delta
  { t.addDays (total / (msPerDay : Int)) with ms := (total % (msPerDay : Int)).toNat }

/-- Whether time value `a` is before `b`. -/
def JSDate.before (a b : JSDate) : Bool :=
  decide (a.year < b.year) || (decide (a.year = b.year) &&
    (decide (a.month < b.month) || (decide (a.month = b.month) &&
      (decide (a.date < b.date) || (decide (a.date = b.date) && decide (a.ms < b.ms))))))

/-- Models `MakeDay(year, month, date)` of ECMAScript at the start of the day: the
month is normalised into the year (`ym = y + floor(m / 12)`, `mn = m mod 12`),
then the result is `date - 1` days after the first of that month; so day 0 is
the last day of the month before, and a day past the end of the month rolls
into the next one. -/
def makeDay (y m d : Int) : JSDate :=
  JSDate.addDays ⟨y + m / 12, (m % 12).toNat, 1, 0⟩ (d - 1)

/-- The time value of `new Date(0)`. -/
def epoch : JSDate := ⟨1970, 0, 1, 0⟩

/-! ## The platform -/

/-- Everything the service takes from its platform and from the releases of
its libraries. -/
structure Env where
  /-- The configuration modules on disk: what `require(path)` loads, a record
  per module path. -/
  files : String → Option JProps
  /-- The time value of `new Date()`. -/
  now : JSDate
  /-- The offset `LocalTZA(t, isUTC)` of the time zone of the process, in
  milliseconds: for a time value `t` when `isUTC`, for a local time otherwise. -/
  localTZA : JSDate → Bool → Int
  /-- The milliseconds `dateFns.parse` adds to a date it has read as UTC,
  when the string names no time zone: the offset of the zone as it reads it
  from `getTimezoneOffset()` at that time value (the releases of date-fns 1.x
  differ in how they correct it where the offset of the zone changes). -/
  parseOffset : JSDate → Int
  /-- Result of `dateFns.parse` on anything but a `YYYY-MM-DD` string
  (`none` is an invalid date). -/
  parseOther : Option JVal → Option JSDate
  /-- Rendering `Number::toString` of a number that is not an integer of
  magnitude up to `2^53 - 1`. -/
  numberToString : ℚ → String
  /-- Rendering `ToString` of an object or array. -/
  objectToString : Bool → JProps → String
  /-- The array length `ToNumber` makes of a string or object, `none` when it
  makes none. -/
  toArrayLength : JVal → Option Nat
  /-- What `lodash.merge` leaves of the destination (an array when the flag is
  set) after it has met the source key `__proto__` with the given value (the
  releases of lodash differ). -/
  protoMerge : Bool → JProps → JVal → JProps
  /-- The call `Intl.NumberFormat(country, options).format(+price)` with the
  currency style; it throws on an unusable locale or currency. -/
  currencyFormat : Option JVal → Option JVal → String → Except IntlError String
  /-- Strings, other than plain numerals of at most 15 digits, that joi converts
  to a number. -/
  numericString : String → Bool
  /-- Whether joi takes a number beyond the safe integer range (joi takes it
  before version 14 and rejects it from then on). -/
  unsafeNumbers : Bool
  /-- Values, other than `YYYY-MM-DD` strings, that joi takes as an ISO date. -/
  isoDate : JVal → Bool
  /-- Strings that joi converts to an object. -/
  objectString : String → Bool
  /-- The pipeline `ejs.renderFile`, `htmlPdf.create`, `pdf.toStream()`: the
  bytes of the PDF, or the error thrown. -/
  renderPdf : JProps → Except JSError String

/-! ## lodash `merge`

`merge(object, source)` mutates and returns `object`.  `baseMerge` walks the
keys of `source`; a source value that is an object or array goes through
`baseMergeDeep`, any other value is assigned.  In `baseMergeDeep` the value
merged into is: the destination value itself when it is an array (source an
array) or any object (source a plain object); for a source array facing
anything else, a copy of the indexed elements of the destination when that is
array-like (a plain object with a `length`), or a fresh `[]`; a fresh plain
object when the source is a plain object and the destination is not an object.
Arrays are therefore merged index by index.  Assigning the key `length` of an
array sets its length: it deletes the elements from that index on, or throws a
`RangeError`.  A throw leaves the destination as mutated so far. -/

/-- The array length that assigning `array.length = v` sets, `none` when the
assignment throws. -/
def toArrayLength (env : Env) : JVal → Option Nat
  | .num q => if q.den = 1 ∧ 0 ≤ q.num ∧ q.num < 4294967296 then some q.num.toNat else none
  | .null => some 0
  | .bool b => some (if b then 1 else 0)
  | v => env.toArrayLength v

/-- The assignment `object[key] = v` that `assignMergeValue` makes, on an
array when `isArr` is set. -/
def assignProp (env : Env) (isArr : Bool) (object : JProps) (key : String) (v : JVal) :
    Except JSError JProps :=
  if isArr && key == "length" then
    match toArrayLength env v with
    | some n => .ok (object.dropIndicesFrom n)
    | none => .error invalidArrayLength
  else .ok (object.set key v)

mutual
/-- The value `baseMerge` leaves at `object[key]`, from the destination value
`objValue` (`none` when absent) and the source value.  On a throw, the error
comes with the destination value as mutated so far when the merge went into
the destination value itself, and with `none` when it went into a fresh
object. -/
def mergeValue (env : Env) (objValue : Option JVal) :
    JVal → Except (Option JVal × JSError) JVal
  | .obj srcArr srcProps =>
    match objValue with
    | some (.obj objArr objProps) =>
      if srcArr && !objArr then
        match arrayLikeLength objProps with
        | some n =>
          if n < 4294967296 then
            match baseMerge env true (objProps.indicesBelow n) srcProps with
            | .ok props => .ok (.obj true props)
            | .error (_, e) => .error (none, e)
          else .error (none, invalidArrayLength)
        | none =>
          match baseMerge env true .nil srcProps with
          | .ok props => .ok (.obj true props)
          | .error (_, e) => .error (none, e)
      else
        match baseMerge env objArr objProps srcProps with
        | .ok props => .ok (.obj objArr props)
        | .error (sofar, e) => .error (some (.obj objArr sofar), e)
    | _ =>
      match baseMerge env srcArr .nil srcProps with
      | .ok props => .ok (.obj srcArr props)
      | .error (_, e) => .error (none, e)
  | srcValue => .ok srcValue
/-- The loop of `baseMerge(object, source)` over the keys of `source`, on an
array when `isArr` is set: the merged object, or the error thrown with the
object as mutated so far. -/
def baseMerge (env : Env) (isArr : Bool) (object : JProps) :
    JProps → Except (JProps × JSError) JProps
  | .nil => .ok object
  | .cons key srcValue rest =>
    if key = "__proto__" then
      baseMerge env isArr (env.protoMerge isArr object srcValue) rest
    else
      match mergeValue env (object.get key) srcValue with
      | .error (some v, e) => .error (object.set key v, e)
      | .error (none, e) => .error (object, e)
      | .ok v =>
        match assignProp env isArr object key v with
        | .error e => .error (object, e)
        | .ok assigned => baseMerge env isArr assigned rest
end

/-- The call `merge(object, source)` of lodash on two objects. -/
def merge (env : Env) (object source : JProps) : Except (JProps × JSError) JProps :=
  baseMerge env false object source

/-! ## The `Date` object -/

/-- Models `LocalTime(t)`: the time value on the clocks of the process. -/
def localTime (env : Env) (t : JSDate) : JSDate := t.addMs (env.localTZA t true)

/-- Models `UTC(t)`: the time value of a local time. -/
def utcTime (env : Env) (l : JSDate) : JSDate := l.addMs (-(env.localTZA l false))

/-- Models `date.getFullYear()`. -/
def JSDate.getFullYear (env : Env) (t : JSDate) : Int := (localTime env t).year

/-- Models `date.getMonth()`. -/
def JSDate.getMonth (env : Env) (t : JSDate) : Nat := (localTime env t).month

/-- Models `date.getDate()`. -/
def JSDate.getDate (env : Env) (t : JSDate) : Nat := (localTime env t).date

/-- Models `date.setFullYear(y, m, d)`: the day `MakeDay(y, m, d)` at the local time
of day of `date`, as a time value. -/
def JSDate.setFullYear (env : Env) (t : JSDate) (y m d : Int) : JSDate :=
  utcTime env { makeDay y m d with ms := (localTime env t).ms }

/-- Models `date.setMonth(m, d)`: the day `MakeDay(year, m, d)` of the local year of
`date` at its local time of day, as a time value. -/
def JSDate.setMonth (env : Env) (t : JSDate) (m d : Int) : JSDate :=
  utcTime env { makeDay (localTime env t).year m d with ms := (localTime env t).ms }

/-- Models `date.setHours(0, 0, 0, 0)`: the start of the local day of `date`, as a
time value. -/
def JSDate.setHours0 (env : Env) (t : JSDate) : JSDate :=
  utcTime env { localTime env t with ms := 0 }

/-! ## Numbers and strings -/

/-- The decimal digits of a natural number. -/
def natToString (n : Nat) : String := Nat.repr n

/-- Left-pad a digit list with `'0'` up to `targetLength`. -/
def padZeros (targetLength : Nat) (ds : List Char) : List Char :=
  List.replicate (targetLength - ds.length) '0' ++ ds

/-- The integer `n` with `n / 10^f` nearest to `|q|`, the larger one on a tie
(step 10 of `Number.prototype.toFixed`). -/
def roundScaled (q : ℚ) (f : Nat) : Nat :=
  (2 * q.num.natAbs * 10 ^ f + q.den) / (2 * q.den)

/-- Whether `10^21 ≤ |q|`. -/
def atLeast1e21 (q : ℚ) : Bool := decide (10 ^ 21 * q.den ≤ q.num.natAbs)

/-- Models `Number::toString`: an integer of magnitude up to `2^53 - 1` prints its
digits; every other number is left to the platform. -/
def numberToString (env : Env) (q : ℚ) : String :=
  if q.den = 1 ∧ q.num.natAbs ≤ 9007199254740991 then
    (if q.num < 0 then "-" else "") ++ natToString q.num.natAbs
  else env.numberToString q

/-- Models `ToString(value)`, as a template literal applies it. -/
def toStr (env : Env) : Option JVal → String
  | none => "undefined"
  | some .null => "null"
  | some (.bool b) => if b then "true" else "false"
  | some (.num q) => numberToString env q
  | some (.str s) => s
  | some (.obj isArr props) => env.objectToString isArr props

/-- Models `Number.prototype.toFixed(f)` for `f > 0` on the number `q`: below
`10^21` the exact integer `n` of step 10 is printed with a point before its
last `f` digits. -/
def toFixed (env : Env) (q : ℚ) (f : Nat) : String :=
  let s := if q < 0 then "-" else ""
  if atLeast1e21 q then s ++ numberToString env |q|
  else
    let n := roundScaled q f
    let m := padZeros (f + 1) (natToString n).data
    let a := m.take (m.length - f)
    let b := m.drop (m.length - f)
    s ++ String.mk (a ++ '.' :: b)

/-- The method call `value.toFixed(f)`: only a number has the method. -/
def callToFixed (env : Env) (value : Option JVal) (f : Nat) : Except JSError String :=
  match value with
  | some (.num q) => .ok (toFixed env q f)
  | none => .error (toFixedOfNothing "undefined")
  | some .null => .error (toFixedOfNothing "null")
  | some _ => .error toFixedTypeError

/-! ## date-fns 1.x -/

namespace dateFns

/-- Models `getDaysInMonth` of date-fns 1.x: the local date of a `new Date(0)` after
`setFullYear(year, monthIndex + 1, 0)` and `setHours(0, 0, 0, 0)`. -/
def getDaysInMonth (env : Env) (dirtyDate : JSDate) : Nat :=
  let date := dirtyDate
  let year := date.getFullYear env
  let monthIndex := date.getMonth env
  let lastDayOfMonth := epoch
  let lastDayOfMonth := lastDayOfMonth.setFullYear env year ((monthIndex : Int) + 1) 0
  let lastDayOfMonth := lastDayOfMonth.setHours0 env
  lastDayOfMonth.getDate env

/-- Models `addMonths` of date-fns 1.x: move to the desired month and clamp the day
to the length of that month. -/
def addMonths (env : Env) (dirtyDate : JSDate) (dirtyAmount : Int) : JSDate :=
  let date := dirtyDate
  let amount := dirtyAmount
  let desiredMonth : Int := (date.getMonth env : Int) + amount
  let dateWithDesiredMonth := epoch
  let dateWithDesiredMonth :=
    dateWithDesiredMonth.setFullYear env (date.getFullYear env) desiredMonth 1
  let dateWithDesiredMonth := dateWithDesiredMonth.setHours0 env
  let daysInMonth := getDaysInMonth env dateWithDesiredMonth
  date.setMonth env desiredMonth (min (daysInMonth : Int) (date.getDate env : Int))

/-- Models `lastDayOfMonth` of date-fns 1.x: `setFullYear(year, month + 1, 0)`, then
`setHours(0, 0, 0, 0)`. -/
def lastDayOfMonth (env : Env) (dirtyDate : JSDate) : JSDate :=
  let date := dirtyDate
  let month := date.getMonth env
  let date := date.setFullYear env (date.getFullYear env) ((month : Int) + 1) 0
  date.setHours0 env

/-- Models `addLeadingZeros(number, targetLength)` of date-fns 1.x:
`Math.abs(number).toString()` padded on the left with zeros. -/
def addLeadingZeros (number : Int) (targetLength : Nat) : String :=
  String.mk (padZeros targetLength (natToString number.natAbs).data)

/-- The format tokens the service uses. -/
inductive Token where
  | DD
  | MM
  | YYYY
  | lit (c : Char)

/-- One formatter of date-fns 1.x `format`, on the local time of the date:
`getDate()`, `getMonth() + 1`, `getFullYear()`. -/
def formatToken (date : JSDate) : Token → String
  | .DD => addLeadingZeros date.date 2
  | .MM => addLeadingZeros (date.month + 1) 2
  | .YYYY => addLeadingZeros date.year 4
  | .lit c => String.singleton c

/-- The formatters of a format string on a local time. -/
def formatLocal (date : JSDate) (formatStr : List Token) : String :=
  String.join (formatStr.map (formatToken date))

/-- Models `format(date, formatStr)` of date-fns 1.x; an invalid date (`none`)
formats as `Invalid Date`. -/
def format (env : Env) (dirtyDate : Option JSDate) (formatStr : List Token) : String :=
  match dirtyDate with
  | none => "Invalid Date"
  | some date => formatLocal (localTime env date) formatStr

/-- The format string `DD-MM-YYYY`. -/
def ddmmyyyy : List Token := [.DD, .lit '-', .MM, .lit '-', .YYYY]

/-- Read a string of the form `YYYY-MM-DD` as three numbers. -/
def splitCalendar (s : String) : Option (Nat × Nat × Nat) :=
  match s.data with
  | [y1, y2, y3, y4, '-', m1, m2, '-', d1, d2] =>
    match digitValue y1, digitValue y2, digitValue y3, digitValue y4,
        digitValue m1, digitValue m2, digitValue d1, digitValue d2 with
    | some a, some b, some c, some d, some e, some f, some g, some h =>
      some (1000 * a + 100 * b + 10 * c + d, 10 * e + f, 10 * g + h)
    | _, _, _, _, _, _, _, _ => none
  | _ => none

/-- Models `parse(argument)` of date-fns 1.x.  A `YYYY-MM-DD` string is read as UTC,
`setUTCFullYear(year, month - 1, day)` on a `new Date(0)`, whatever the digits
are, and the offset of the zone is then added to the time value; every other
argument is left to the platform. -/
def parse (env : Env) (argument : Option JVal) : Option JSDate :=
  match argument with
  | some (.str s) =>
    match splitCalendar s with
    | some (year, month, day) =>
      let date := makeDay year ((month : Int) - 1) day
      some (date.addMs (env.parseOffset date))
    | none => env.parseOther argument
  | _ => env.parseOther argument

end dateFns

/-! ## The module cache -/

/-- A call observed from outside (what a mock of the store would record). -/
inductive Event where
  | lookup (path : String)
  | compute
  deriving DecidableEq

/-- The mutable state of the process: the module cache of `require`, and the
record of calls made so far. -/
structure World where
  cache : List (String × JProps) := []
  trace : List Event := []

/-- The cached module for a path. -/
def cacheGet : List (String × JProps) → String → Option JProps
  | [], _ => none
  | (p, m) :: rest, path => if p = path then some m else cacheGet rest path

/-- Store a module object under a path. -/
def cachePut : List (String × JProps) → String → JProps → List (String × JProps)
  | [], path, m => [(path, m)]
  | (p, old) :: rest, path, m =>
    if p = path then (p, m) :: rest else (p, old) :: cachePut rest path m

/-- Node `require(path)`: the cached module object when there is one, otherwise
the module is loaded from disk and cached. -/
def require (env : Env) (w : World) (path : String) : Except JSError JProps × World :=
  match cacheGet w.cache path with
  | some m => (.ok m, w)
  | none =>
    match env.files path with
    | some m => (.ok m, { w with cache := cachePut w.cache path m })
    | none => (.error (moduleNotFound path), w)

/-! ## Service functions -/

/-- The source: `fileExists`: the loaded module, or `false` (`none`) when
`require` throws. -/
def fileExists (env : Env) (w : World) (filepath : String) : Option JProps × World :=
  match require env w filepath with
  | (.ok m, w1) => (some m, w1)
  | (.error _, w1) => (none, w1)

/-- The module path `invoicesDir + tag` with `tag = sellerId@buyerId`. -/
def configPath (env : Env) (requestPayload : JVal) : String :=
  let invoicesDir := "./config/invoices/"
  let tag := toStr env (requestPayload.get "sellerId") ++ "@" ++
    toStr env (requestPayload.get "buyerId")
  invoicesDir ++ tag

/-- The source: `getDefaultInvoiceConfig`. -/
def getDefaultInvoiceConfig (env : Env) (w : World) (requestPayload : JVal) :
    Except JSError JProps × World :=
  let path := configPath env requestPayload
  let w0 := { w with trace := w.trace ++ [Event.lookup path] }
  match fileExists env w0 path with
  | (none, w1) => (.error InvoiceNotFound, w1)
  | (some _, w1) => require env w1 path

/-- The source: the inner function `getCnfigFromPayload` of `getInvoiceConfig`. -/
def getCnfigFromPayload (env : Env) (requestPayload : JVal) (defaultConfig : JProps) :
    Except JSError JProps :=
  let now := env.now
  let parsedDate := dateFns.parse env (requestPayload.get "date")
  let prevMonth := parsedDate.map (fun d => dateFns.addMonths env d (-1))
  let dateOfExposure := dateFns.format env (some now) dateFns.ddmmyyyy
  let documentDate :=
    "01/" ++ dateFns.format env parsedDate [.MM] ++ "/" ++
      dateFns.format env parsedDate [.YYYY]
  let dateOfSell :=
    dateFns.format env (prevMonth.map (dateFns.lastDayOfMonth env)) dateFns.ddmmyyyy
  let information := toStr env (requestPayload.get "hours") ++ "h"
  match callToFixed env (requestPayload.get "price") 2 with
  | .error e => .error e
  | .ok price =>
    let product := JVal.object [("information", .str information), ("price", .str price)]
    match env.currencyFormat (defaultConfig.get "country") (defaultConfig.get "currency")
        price with
    | .error e => .error e.toError
    | .ok toPayInNumbers =>
      let payment := JVal.object [("toPayInNumbers", .str toPayInNumbers)]
      .ok (JProps.ofList [("dateOfExposure", .str dateOfExposure),
        ("dateOfSell", .str dateOfSell), ("documentDate", .str documentDate),
        ("product", product), ("payment", payment)])

/-- The source: `getInvoiceConfig`.  `merge` mutates its first argument, and
that argument is the module object `require` holds in its cache: the merged
object is both the result and the new cached module, and when `merge` throws,
the cached module is left as mutated up to the throw. -/
def getInvoiceConfig (env : Env) (w : World) (requestPayload : JVal) :
    Except JSError JProps × World :=
  match getDefaultInvoiceConfig env w requestPayload with
  | (.error e, w1) => (.error e, w1)
  | (.ok defaultConfig, w1) =>
    let w2 := { w1 with trace := w1.trace ++ [Event.compute] }
    match getCnfigFromPayload env requestPayload defaultConfig with
    | .error e => (.error e, w2)
    | .ok customConfig =>
      match merge env defaultConfig customConfig with
      | .error (sofar, e) =>
        (.error e, { w2 with cache := cachePut w2.cache (configPath env requestPayload) sofar })
      | .ok merged =>
        match merge env merged requestPayload.props with
        | .error (sofar, e) =>
          (.error e,
            { w2 with cache := cachePut w2.cache (configPath env requestPayload) sofar })
        | .ok resolved =>
          (.ok resolved,
            { w2 with cache := cachePut w2.cache (configPath env requestPayload) resolved })

/-! ## Request validation (joi) -/

/-- The joi types the schema uses. -/
inductive JoiType where
  | string
  | number
  | dateIso
  | object

/-- One key of `joi.object().keys(...)`. -/
structure JoiKey where
  key : String
  type : JoiType
  required : Bool

/-- The source: `schema`. -/
def schema : List JoiKey :=
  [⟨"buyerId", .string, true⟩, ⟨"sellerId", .string, true⟩,
   ⟨"date", .dateIso, true⟩, ⟨"hours", .number, true⟩, ⟨"price", .number, true⟩,
   ⟨"invoice", .object, false⟩]

/-- A decimal numeral of 1 to 15 digits without a leading zero (or `0` itself):
a string that joi converts to a number, in every version. -/
def isPlainNumeral (s : String) : Bool :=
  match s.data with
  | [] => false
  | [c] => c.isDigit
  | c :: rest => c.isDigit && c != '0' && rest.all Char.isDigit && decide (rest.length ≤ 14)

/-- Whether `|q|` is at most `2^53 - 1`. -/
def isSafeNumber (q : ℚ) : Bool := decide (q.num.natAbs ≤ 9007199254740991 * q.den)

/-- A `YYYY-MM-DD` string with month 01 to 12 and day 01 to 31, which the ISO
pattern of joi accepts. -/
def isCalendarString (s : String) : Bool :=
  match dateFns.splitCalendar s with
  | some (_, m, d) => decide (1 ≤ m ∧ m ≤ 12 ∧ 1 ≤ d ∧ d ≤ 31)
  | none => false

/-- Whether a present value passes a joi type, under the default options
(`convert: true`: a numeric string passes `number()`, a JSON string may pass
`object()`; an empty string fails `string()`; an array fails `object()`). -/
def joiAccepts (env : Env) : JoiType → JVal → Bool
  | .string, .str s => s != ""
  | .string, _ => false
  | .number, .num q => isSafeNumber q || env.unsafeNumbers
  | .number, .str s => isPlainNumeral s || env.numericString s
  | .number, _ => false
  | .dateIso, .str s => isCalendarString s || env.isoDate (.str s)
  | .dateIso, v => env.isoDate v
  | .object, .obj isArr _ => !isArr
  | .object, .str s => env.objectString s
  | .object, _ => false

/-- The error joi rejects with (its enumerable properties, which no path of
the service prints, are left out). -/
def validationError (message : String) : JSError :=
  { name := "ValidationError", message := message, isJoi := true }

/-- The message of joi for a missing or rejected key. -/
def childMessage (key reason : String) : String :=
  "child \"" ++ key ++ "\" fails because [\"" ++ key ++ "\" " ++ reason ++ "]"

/-- What joi says of a value that fails a type. -/
def typeReason : JoiType → JVal → String
  | .string, .str _ => "is not allowed to be empty"
  | .string, _ => "must be a string"
  | .number, .num _ => "must be a safe number"
  | .number, _ => "must be a number"
  | .dateIso, _ => "must be a valid ISO 8601 date"
  | .object, _ => "must be an object"

/-- The keys of the schema, checked in order; the first failure ends the
validation (`abortEarly`). -/
def validateKeys (env : Env) (body : JProps) : List JoiKey → Except JSError Unit
  | [] => .ok ()
  | k :: rest =>
    match body.get k.key with
    | none =>
      if k.required then .error (validationError (childMessage k.key "is required"))
      else validateKeys env body rest
    | some v =>
      if joiAccepts env k.type v then validateKeys env body rest
      else .error (validationError (childMessage k.key (typeReason k.type v)))

/-- The first key of the body that the schema does not list. -/
def firstUnknownKey (sch : List JoiKey) : List String → Option String
  | [] => none
  | k :: rest => if (sch.map JoiKey.key).contains k then firstUnknownKey sch rest else some k

/-- Models `joi.validate(body, schema)`: the body is a plain object, every schema key
passes, and no other key is present. -/
def joiValidate (env : Env) (body : JVal) (sch : List JoiKey) : Except JSError Unit :=
  match body with
  | .obj false props =>
    match validateKeys env props sch with
    | .error e => .error e
    | .ok () =>
      match firstUnknownKey sch props.keys with
      | some k => .error (validationError ("\"" ++ k ++ "\" is not allowed"))
      | none => .ok ()
  | _ => .error (validationError "\"value\" must be an object")

/-! ## The express response and the application -/

/-- What a response carries. -/
inductive Body where
  | json (value : JVal)
  | stream (bytes : String)
  deriving DecidableEq

/-- A response as it went on the wire. -/
structure Sent where
  statusCode : JVal
  headers : List (String × String)
  body : Body
  deriving DecidableEq

/-- The response object `res`: its current `statusCode` field and headers, and
the response already sent, if any. -/
structure Response where
  statusCode : JVal := .num 200
  headers : List (String × String) := []
  sent : Option Sent := none
  deriving DecidableEq

/-- Header names are case-insensitive; they are kept in lower case. -/
def lowerCase (s : String) : String := String.mk (s.data.map Char.toLower)

/-- Set a header in a header list. -/
def putHeader : List (String × String) → String → String → List (String × String)
  | [], name, value => [(name, value)]
  | (n, v) :: rest, name, value =>
    if n = name then (n, value) :: rest else (n, v) :: putHeader rest name value

/-- Look a header up by name, in any case. -/
def getHeader (headers : List (String × String)) (name : String) : Option String :=
  headers.lookup (lowerCase name)

/-- Models `res.status(code)`: assigns `res.statusCode`; a response already sent is
not changed by it. -/
def Response.status (res : Response) (code : JVal) : Response :=
  { res with statusCode := code }

/-- Models `res.setHeader(name, value)`. -/
def Response.setHeader (res : Response) (name value : String) : Response :=
  { res with headers := putHeader res.headers (lowerCase name) value }

/-- Models `res.json(value)`: sends the value as JSON with the current status. -/
def Response.json (res : Response) (value : JVal) : Response :=
  match res.sent with
  | some _ => res
  | none =>
    let headers :=
      match getHeader res.headers "Content-Type" with
      | some _ => res.headers
      | none => putHeader res.headers "content-type" "application/json; charset=utf-8"
    { res with headers := headers, sent := some ⟨res.statusCode, headers, .json value⟩ }

/-- Models `res.send(error)` with an error object: express sends an object as JSON,
and `JSON.stringify` prints the own enumerable properties of the error. -/
def Response.send (res : Response) (error : JSError) : Response :=
  res.json (.obj false error.enumerable)

/-- Models `stream.pipe(res)`: the stream is the body, sent with the current status
and headers. -/
def Response.pipe (res : Response) (bytes : String) : Response :=
  match res.sent with
  | some _ => res
  | none => { res with sent := some ⟨res.statusCode, res.headers, .stream bytes⟩ }

/-- The JavaScript `a || b` on an optional value. -/
def orElse (a : Option JVal) (b : JVal) : JVal :=
  match a with
  | some v => if v.truthy then v else b
  | none => b

/-- The source: the validator middleware: `.ok` is `next()`, `.error e` is
`next(error)`. -/
def validator (env : Env) (sch : List JoiKey) (body : JVal) : Except JSError Unit :=
  match joiValidate env body sch with
  | .ok () => .ok ()
  | .error error => .error error

/-- The source: the route handler of `POST /`. -/
def postHandler (env : Env) (w : World) (body : JVal) (res : Response) :
    Response × World :=
  match getInvoiceConfig env w body with
  | (.error error, w1) => ((res.send error).status (.num 500), w1)
  | (.ok userInvoiceConfig, w1) =>
    match env.renderPdf userInvoiceConfig with
    | .error error => ((res.send error).status (.num 500), w1)
    | .ok stream =>
      let filename := "invoice.pdf"
      let res1 := res.setHeader "Content-disposition"
        ("inline: filename=\"" ++ filename ++ "\"")
      let res2 := res1.setHeader "Content-type" "application/pdf"
      (res2.pipe stream, w1)

/-- The source: the error middleware. -/
def errorMiddleware (_error : JSError) (res : Response) : Response :=
  let statusCode :=
    if _error.isJoi then .num 400
    else orElse _error.statusCode (orElse _error.status (orElse _error.code (.num 500)))
  let error := _error.name
  let message := _error.message
  (res.status statusCode).json
    (.object [("statusCode", statusCode), ("error", .str error), ("message", .str message)])

/-- The application on one `POST /` request with parsed body `body`: the
validator, then the route handler on `next()`, or the error middleware on
`next(error)`.  The result is the response object and the new process state. -/
def app (env : Env) (w : World) (body : JVal) : Response × World :=
  match validator env schema body with
  | .error error => (errorMiddleware error {}, w)
  | .ok () => postHandler env w body {}

/-- The response that went on the wire. -/
def wire (r : Response × World) : Option Sent := r.1.sent

/-! ## Auxiliary definitions of the statements -/

mutual
/-- The merge of `mergeValue` on data without a property named `length` or
`__proto__`, where nothing is thrown: a source object merges into a destination
object (an array only into an array) and into a fresh object otherwise; any
other source value replaces the destination value. -/
def plainMergeValue (objValue : Option JVal) : JVal → JVal
  | .obj srcArr srcProps =>
    match objValue with
    | some (.obj objArr objProps) =>
      if srcArr && !objArr then .obj true (plainBaseMerge .nil srcProps)
      else .obj objArr (plainBaseMerge objProps srcProps)
    | _ => .obj srcArr (plainBaseMerge .nil srcProps)
  | srcValue => srcValue
/-- The merge of `baseMerge` on data without a property named `length` or
`__proto__`. -/
def plainBaseMerge (object : JProps) : JProps → JProps
  | .nil => object
  | .cons key srcValue rest =>
    plainBaseMerge (object.set key (plainMergeValue (object.get key) srcValue)) rest
end

/-- At every proper prefix of `path` the source holds nothing or a plain
object: merging the source never replaces a value on the way to `path`. -/
def JProps.plainAbove : JProps → List String → Bool
  | _, [] => true
  | _, [_] => true
  | s, k :: rest =>
    match s.get k with
    | none => true
    | some (.obj false inner) => inner.plainAbove rest
    | some _ => false

/-- The configuration `require` resolves for a module path: the cached module
object, or else the module on disk. -/
def storedConfig (env : Env) (w : World) (path : String) : Option JProps :=
  match cacheGet w.cache path with
  | some m => some m
  | none => env.files path

/-- A time value as every `Date` holds it: a day of the calendar and a time
within the day. -/
def JSDate.valid (t : JSDate) : Bool :=
  decide (t.month ≤ 11) && decide (1 ≤ t.date) && decide (t.date ≤ monthLength t.year t.month)
    && decide (t.ms < msPerDay)

/-- Two time values on the same calendar day. -/
def JSDate.sameDay (a b : JSDate) : Bool :=
  decide (a.year = b.year) && decide (a.month = b.month) && decide (a.date = b.date)

/-- The time zone of the process never moves a local time to another calendar
day: the time value of a local time, read back on the clocks of the process,
falls on the day of that local time.  A zone that keeps one offset is such a
zone, and so is one that moves its clocks by an hour within a day, like the
zone of `aucklandEnv`; a zone whose clocks skip a day is not. -/
def Env.dayStable (env : Env) : Prop :=
  ∀ l : JSDate, l.valid = true → (localTime env (utcTime env l)).sameDay l = true

/-- The time zone of the process keeps the one offset `c` (milliseconds ahead
of UTC), and `parse` of date-fns reads that offset (every release of date-fns
1.x does when the offset is a whole number of minutes). -/
def Env.fixedOffset (env : Env) (c : Int) : Prop :=
  (∀ (t : JSDate) (isUTC : Bool), env.localTZA t isUTC = c) ∧
    ∀ t : JSDate, env.parseOffset t = -c

/-- Holds when date-fns reads `date` as a time that falls, on the clocks of the
process, in month `m` (1 to 12) of year `y`. -/
def readsInMonth (env : Env) (date : Option JVal) (y : Int) (m : Nat) : Prop :=
  ∃ t : JSDate, dateFns.parse env date = some t ∧ t.valid = true ∧
    (localTime env t).year = y ∧ (localTime env t).month + 1 = m

namespace Spec

/-- The spec: the month before month `m` (0 = January) of year `y`: December of
the year before for January. -/
def previousMonth (y : Int) (m : Nat) : Int × Nat :=
  if m = 0 then (y - 1, 11) else (y, m - 1)

/-- The spec: the last calendar day of the month preceding month `m` of year
`y`. -/
def lastDayOfPreviousMonth (y : Int) (m : Nat) : JSDate :=
  ⟨(previousMonth y m).1, (previousMonth y m).2,
    monthLength (previousMonth y m).1 (previousMonth y m).2, 0⟩

/-- The spec: the number of hundredths nearest to `|p|`, the larger one on a
tie. -/
def hundredths (p : ℚ) : Nat := ⌊|p| * 100 + 1 / 2⌋.toNat

/-- The spec: `p` as a decimal string with exactly two fractional digits: the
sign, the integer part, a point and two digits. -/
def twoDecimals (p : ℚ) : String :=
  (if p < 0 then "-" else "") ++
    String.mk ((natToString (hundredths p / 100)).data ++
      ['.', Nat.digitChar (hundredths p / 10 % 10), Nat.digitChar (hundredths p % 10)])

end Spec

/-! ## A sample platform and sample requests -/

/-- The stored configuration of the round-trip example of the spec. -/
def plainConfig : JProps :=
  .ofList [("country", .str "PL"), ("currency", .str "PLN")]

/-- A stored configuration with nested metadata and an array. -/
def richConfig : JProps :=
  .ofList [("country", .str "PL"), ("currency", .str "PLN"),
    ("date", .object [("format", .str "DD-MM-YYYY")]),
    ("invoice", .object [("items", .array [.str "a", .str "b", .str "c"])])]

/-- A stored configuration whose `invoice.items` is not an array but an object
with a `length` of `2^32`. -/
def arrayLikeConfig : JProps :=
  .ofList [("country", .str "PL"), ("currency", .str "PLN"),
    ("invoice", .object [("items", .object [("length", .num 4294967296)])])]

/-- A platform for the examples: `plainConfig` is stored for seller `s1` and
buyer `b1`, `richConfig` for seller `s2`, `arrayLikeConfig` for seller `s3`,
and nothing else; the clock reads 5 January 2024 and the time zone is UTC; the
currency is appended to the amount; joi is a version before 14; lodash leaves
the own properties of the destination alone at the key `__proto__`; no number
outside the safe integers, and no array, is printed in the examples. -/
def sampleEnv : Env where
  files := fun path =>
    if path = "./config/invoices/s1@b1" then some plainConfig
    else if path = "./config/invoices/s2@b1" then some richConfig
    else if path = "./config/invoices/s3@b1" then some arrayLikeConfig
    else none
  now := ⟨2024, 0, 5, 0⟩
  localTZA := fun _ _ => 0
  parseOffset := fun _ => 0
  parseOther := fun _ => none
  numberToString := fun _ => "(unused)"
  objectToString := fun isArr _ => if isArr then "(unused)" else "[object Object]"
  toArrayLength := fun _ => none
  protoMerge := fun _ object _ => object
  currencyFormat := fun _ currency price =>
    match currency with
    | some (.str c) => .ok (price ++ " " ++ c)
    | _ => .error (.typeError "Currency code is required with currency style.")
  numericString := fun _ => false
  unsafeNumbers := true
  isoDate := fun _ => false
  objectString := fun _ => false
  renderPdf := fun _ => .ok "%PDF-1.4"

/-- The sample platform in a zone that keeps its clocks one hour ahead of
UTC. -/
def plusOneEnv : Env :=
  { sampleEnv with
    localTZA := fun _ _ => 3600000
    parseOffset := fun _ => -3600000 }

/-- The sample platform on the clocks of Auckland around 1 October 2006, the
day daylight saving time starts there: 12 hours ahead of UTC until
2006-09-30T14:00Z (02:00 local time, which the clocks skip to 03:00), 13 hours
from then on; `parse` of date-fns adds the offset in force at the time value it
has read, the UTC midnight of the date. -/
def aucklandEnv : Env :=
  { sampleEnv with
    localTZA := fun t isUTC =>
      if isUTC then (if t.before ⟨2006, 8, 30, 50400000⟩ then 43200000 else 46800000)
      else (if t.before ⟨2006, 9, 1, 10800000⟩ then 43200000 else 46800000)
    parseOffset := fun t =>
      if t.before ⟨2006, 8, 30, 50400000⟩ then -43200000 else -46800000 }

/-- The sample platform in a zone whose clocks skip a day: 10 hours behind UTC
until 1994-12-31T10:00Z, the end of 30 December there, and 14 hours ahead from
then on, so that 1 January 1995 follows 30 December 1994 (the Line Islands made
this change); `parse` of date-fns adds the offset in force at the time value it
has read. -/
def skippedDayEnv : Env :=
  { sampleEnv with
    localTZA := fun t isUTC =>
      if isUTC then (if t.before ⟨1994, 11, 31, 36000000⟩ then -36000000 else 50400000)
      else (if t.before ⟨1995, 0, 1, 0⟩ then -36000000 else 50400000)
    parseOffset := fun t =>
      if t.before ⟨1994, 11, 31, 36000000⟩ then 36000000 else -50400000 }

/-- A request body from its fields for seller and buyer `b1`. -/
def sampleRequest (sellerId date : String) (hours price : JVal)
    (more : List (String × JVal)) : JVal :=
  .object ([("buyerId", .str "b1"), ("sellerId", .str sellerId), ("date", .str date),
    ("hours", hours), ("price", price)] ++ more)

/-- The minimal request of the round-trip example of the spec. -/
def minimalRequest : JVal := sampleRequest "s1" "2023-01-10" (.num 5) (.num 100) []

/-- A request dated 15 March 2023 with price 12.5. -/
def marchRequest : JVal := sampleRequest "s1" "2023-03-15" (.num 5) (.num (25 / 2)) []

/-- The minimal request dated 1 October 2006. -/
def octoberRequest : JVal := sampleRequest "s1" "2006-10-01" (.num 5) (.num 100) []

/-- The minimal request dated 2 October 2006. -/
def octoberSecondRequest : JVal := sampleRequest "s1" "2006-10-02" (.num 5) (.num 100) []

/-- The minimal request dated 15 January 1995. -/
def januaryRequest : JVal := sampleRequest "s1" "1995-01-15" (.num 5) (.num 100) []

/-- The minimal request with the date `2023-02-31`, which the ISO pattern of
joi accepts. -/
def overflowRequest : JVal := sampleRequest "s1" "2023-02-31" (.num 5) (.num 100) []

/-- A valid request for seller `s9`, who has no stored configuration. -/
def unknownSellerRequest : JVal := sampleRequest "s9" "2023-01-10" (.num 5) (.num 100) []

/-- The minimal request without its `price`. -/
def noPriceRequest : JVal :=
  .object [("buyerId", .str "b1"), ("sellerId", .str "s1"), ("date", .str "2023-01-10"),
    ("hours", .num 5)]

/-- The minimal request with an `invoice` block. -/
def firstRequest : JVal :=
  sampleRequest "s1" "2023-01-10" (.num 5) (.num 100)
    [("invoice", .object [("note", .str "first")])]

/-- The minimal request with the price as the string `100`, as a form post
carries it. -/
def stringPriceRequest : JVal := sampleRequest "s1" "2023-01-10" (.num 5) (.str "100") []

/-- A request for a seller whose `invoice` block holds `items`. -/
def invoiceItemsRequest (sellerId : String) (items : JVal) : JVal :=
  sampleRequest sellerId "2023-01-10" (.num 5) (.num 100)
    [("invoice", .object [("items", items)])]

/-- A request for seller `s2` whose `invoice` block has a one-element array. -/
def itemsRequest : JVal :=
  sampleRequest "s2" "2023-01-10" (.num 5) (.num 100)
    [("invoice", .object [("items", .array [.str "z"])])]

/-- A valid request for seller `s2`, whose stored configuration is `richConfig`. -/
def secondSellerRequest : JVal := sampleRequest "s2" "2023-01-10" (.num 5) (.num 100) []

/-! # Theorems -/

set_option maxRecDepth 8000

/-! ## Calendar lemmas -/

theorem monthLength_ge (y : Int) (m : Nat) : 28 ≤ monthLength y m := by
  unfold monthLength
  split <;> try omega
  split <;> omega

theorem JSDate.valid_iff (t : JSDate) :
    t.valid = true ↔ t.month ≤ 11 ∧ 1 ≤ t.date ∧ t.date ≤ monthLength t.year t.month ∧
      t.ms < msPerDay := by
  simp [JSDate.valid, and_assoc]

theorem JSDate.sameDay_iff (a b : JSDate) :
    a.sameDay b = true ↔ a.year = b.year ∧ a.month = b.month ∧ a.date = b.date := by
  simp [JSDate.sameDay, and_assoc]

theorem JSDate.nextDay_ms (t : JSDate) : t.nextDay.ms = t.ms := by
  unfold JSDate.nextDay
  split
  · rfl
  · split <;> rfl

theorem JSDate.prevDay_ms (t : JSDate) : t.prevDay.ms = t.ms := by
  unfold JSDate.prevDay
  split
  · rfl
  · split <;> rfl

theorem JSDate.nextDay_withMs (t : JSDate) (x : Nat) :
    ({ t with ms := x } : JSDate).nextDay = { t.nextDay with ms := x } := by
  unfold JSDate.nextDay
  split
  · rfl
  · split <;> rfl

theorem JSDate.prevDay_withMs (t : JSDate) (x : Nat) :
    ({ t with ms := x } : JSDate).prevDay = { t.prevDay with ms := x } := by
  unfold JSDate.prevDay
  split
  · rfl
  · split <;> rfl

theorem JSDate.nextDay_valid (t : JSDate) (h : t.valid = true) : t.nextDay.valid = true := by
  obtain ⟨y, m, d, ms⟩ := t
  rw [JSDate.valid_iff] at h ⊢
  simp only at h
  unfold JSDate.nextDay
  simp only
  split
  · simp only; omega
  · split
    · have := monthLength_ge y (m + 1)
      simp only; omega
    · have := monthLength_ge (y + 1) 0
      simp only; omega

theorem JSDate.prevDay_valid (t : JSDate) (h : t.valid = true) : t.prevDay.valid = true := by
  obtain ⟨y, m, d, ms⟩ := t
  rw [JSDate.valid_iff] at h ⊢
  simp only at h
  unfold JSDate.prevDay
  simp only
  split
  · simp only; omega
  · split
    · have := monthLength_ge y (m - 1)
      simp only; omega
    · have e : monthLength (y - 1) 11 = 31 := rfl
      simp only; omega

theorem JSDate.prevDay_nextDay (t : JSDate) (h : t.valid = true) : t.nextDay.prevDay = t := by
  obtain ⟨y, m, d, ms⟩ := t
  rw [JSDate.valid_iff] at h
  simp only at h
  unfold JSDate.nextDay
  simp only
  split
  · next h1 =>
    have h2 : 1 < d + 1 := by omega
    simp [JSDate.prevDay, h2]
  · next h1 =>
    have hd : d = monthLength y m := by omega
    split
    · next h2 =>
      simp [JSDate.prevDay, hd]
    · next h2 =>
      have hm : m = 11 := by omega
      subst hm
      have e : monthLength y 11 = 31 := rfl
      simp [JSDate.prevDay, hd, e]

theorem JSDate.nextDay_prevDay (t : JSDate) (h : t.valid = true) : t.prevDay.nextDay = t := by
  obtain ⟨y, m, d, ms⟩ := t
  rw [JSDate.valid_iff] at h
  simp only at h
  unfold JSDate.prevDay
  simp only
  split
  · next h1 =>
    have h2 : d - 1 < monthLength y m := by omega
    have h3 : d - 1 + 1 = d := by omega
    simp [JSDate.nextDay, h2, h3]
  · next h1 =>
    have hd : d = 1 := by omega
    split
    · next h2 =>
      have h3 : m - 1 < 11 := by omega
      have h4 : m - 1 + 1 = m := by omega
      simp [JSDate.nextDay, h3, h4, hd]
    · next h2 =>
      have hm : m = 0 := by omega
      subst hm
      have e : monthLength (y - 1) 11 = 31 := rfl
      simp [JSDate.nextDay, e, hd]

theorem iterate_nextDay_valid (n : Nat) : ∀ t : JSDate, t.valid = true →
    (JSDate.nextDay^[n] t).valid = true := by
  induction n with
  | zero => intro t h; exact h
  | succ n ih =>
    intro t h
    rw [Function.iterate_succ_apply]
    exact ih _ (JSDate.nextDay_valid t h)

theorem iterate_prevDay_valid (n : Nat) : ∀ t : JSDate, t.valid = true →
    (JSDate.prevDay^[n] t).valid = true := by
  induction n with
  | zero => intro t h; exact h
  | succ n ih =>
    intro t h
    rw [Function.iterate_succ_apply]
    exact ih _ (JSDate.prevDay_valid t h)

theorem iterate_prevDay_nextDay (n : Nat) : ∀ t : JSDate, t.valid = true →
    JSDate.prevDay^[n] (JSDate.nextDay^[n] t) = t := by
  induction n with
  | zero => intro t _; rfl
  | succ n ih =>
    intro t h
    rw [Function.iterate_succ_apply, Function.iterate_succ_apply',
      JSDate.prevDay_nextDay _ (iterate_nextDay_valid n t h), ih t h]

theorem iterate_nextDay_prevDay (n : Nat) : ∀ t : JSDate, t.valid = true →
    JSDate.nextDay^[n] (JSDate.prevDay^[n] t) = t := by
  induction n with
  | zero => intro t _; rfl
  | succ n ih =>
    intro t h
    rw [Function.iterate_succ_apply, Function.iterate_succ_apply',
      JSDate.nextDay_prevDay _ (iterate_prevDay_valid n t h), ih t h]

theorem iterate_nextDay_ms (n : Nat) : ∀ t : JSDate, (JSDate.nextDay^[n] t).ms = t.ms := by
  induction n with
  | zero => intro t; rfl
  | succ n ih => intro t; rw [Function.iterate_succ_apply, ih, JSDate.nextDay_ms]

theorem iterate_prevDay_ms (n : Nat) : ∀ t : JSDate, (JSDate.prevDay^[n] t).ms = t.ms := by
  induction n with
  | zero => intro t; rfl
  | succ n ih => intro t; rw [Function.iterate_succ_apply, ih, JSDate.prevDay_ms]

theorem iterate_nextDay_withMs (x : Nat) (n : Nat) : ∀ t : JSDate,
    JSDate.nextDay^[n] { t with ms := x } = { JSDate.nextDay^[n] t with ms := x } := by
  induction n with
  | zero => intro t; rfl
  | succ n ih =>
    intro t
    rw [Function.iterate_succ_apply, Function.iterate_succ_apply, JSDate.nextDay_withMs, ih]

theorem iterate_prevDay_withMs (x : Nat) (n : Nat) : ∀ t : JSDate,
    JSDate.prevDay^[n] { t with ms := x } = { JSDate.prevDay^[n] t with ms := x } := by
  induction n with
  | zero => intro t; rfl
  | succ n ih =>
    intro t
    rw [Function.iterate_succ_apply, Function.iterate_succ_apply, JSDate.prevDay_withMs, ih]

theorem JSDate.addDays_valid (t : JSDate) (n : Int) (h : t.valid = true) :
    (t.addDays n).valid = true := by
  unfold JSDate.addDays
  split
  · exact iterate_nextDay_valid _ t h
  · exact iterate_prevDay_valid _ t h

theorem JSDate.addDays_ms (t : JSDate) (n : Int) : (t.addDays n).ms = t.ms := by
  unfold JSDate.addDays
  split
  · exact iterate_nextDay_ms _ t
  · exact iterate_prevDay_ms _ t

theorem JSDate.addDays_withMs (t : JSDate) (n : Int) (x : Nat) :
    ({ t with ms := x } : JSDate).addDays n = { t.addDays n with ms := x } := by
  unfold JSDate.addDays
  split
  · exact iterate_nextDay_withMs x _ t
  · exact iterate_prevDay_withMs x _ t

theorem JSDate.addDays_zero (t : JSDate) : t.addDays 0 = t := rfl

/-- Going `n` days on and `n` days back ends on the day of departure. -/
theorem JSDate.addDays_neg_addDays (t : JSDate) (n : Int) (h : t.valid = true) :
    (t.addDays n).addDays (-n) = t := by
  rcases lt_trichotomy n 0 with hn | hn | hn
  · have h1 : ¬ (0 ≤ n) := by omega
    have h2 : 0 ≤ -n := by omega
    have h3 : (- -n).toNat = 0 := by omega
    simp only [JSDate.addDays, h1, h2, if_true, if_false]
    exact iterate_nextDay_prevDay _ t h
  · subst hn
    rfl
  · have h1 : 0 ≤ n := by omega
    have h2 : ¬ (0 ≤ -n) := by omega
    have h3 : (- -n).toNat = n.toNat := by omega
    simp only [JSDate.addDays, h1, h2, if_true, if_false, h3]
    exact iterate_prevDay_nextDay _ t h

theorem JSDate.withMs_valid (t : JSDate) (x : Nat) (h : t.valid = true) (hx : x < msPerDay) :
    ({ t with ms := x } : JSDate).valid = true := by
  rw [JSDate.valid_iff] at h ⊢
  exact ⟨h.1, h.2.1, h.2.2.1, hx⟩

theorem JSDate.addMs_ms_lt (t : JSDate) (delta : Int) : (t.addMs delta).ms < msPerDay := by
  simp only [JSDate.addMs, msPerDay]
  omega

theorem JSDate.addMs_valid (t : JSDate) (delta : Int) (h : t.valid = true) :
    (t.addMs delta).valid = true := by
  have h1 := JSDate.addMs_ms_lt t delta
  have h2 := JSDate.addDays_valid t (((t.ms : Int) + delta) / (msPerDay : Int)) h
  exact JSDate.withMs_valid _ _ h2 h1

/-- Adding milliseconds and taking them away again gives the time value back. -/
theorem JSDate.addMs_neg_addMs (t : JSDate) (delta : Int) (h : t.valid = true) :
    (t.addMs delta).addMs (-delta) = t := by
  have hms : t.ms < msPerDay := ((JSDate.valid_iff t).mp h).2.2.2
  unfold msPerDay at hms
  have hq : ((((((t.ms : Int) + delta) % 86400000).toNat : Nat) : Int) + -delta) / 86400000 =
      -(((t.ms : Int) + delta) / 86400000) := by omega
  have hr : (((((((t.ms : Int) + delta) % 86400000).toNat : Nat) : Int) + -delta)
      % 86400000).toNat = t.ms := by omega
  simp only [JSDate.addMs, msPerDay, Nat.cast_ofNat, hq, hr]
  rw [JSDate.addDays_withMs]
  simp only
  rw [JSDate.addDays_neg_addDays t _ h]

/-! ### `MakeDay` -/

theorem iterate_nextDay (k : Nat) : ∀ (y : Int) (m d x : Nat), d + k ≤ monthLength y m →
    JSDate.nextDay^[k] ⟨y, m, d, x⟩ = ⟨y, m, d + k, x⟩ := by
  induction k with
  | zero => intro y m d x _; rfl
  | succ k ih =>
    intro y m d x h
    have h1 : d < monthLength y m := by omega
    rw [Function.iterate_succ_apply]
    have : JSDate.nextDay ⟨y, m, d, x⟩ = ⟨y, m, d + 1, x⟩ := by
      simp [JSDate.nextDay, h1]
    rw [this, ih y m (d + 1) x (by omega)]
    congr 1
    omega

theorem makeDay_in_month (y M d : Int) (h1 : 1 ≤ d)
    (h2 : d.toNat ≤ monthLength (y + M / 12) (M % 12).toNat) :
    makeDay y M d = ⟨y + M / 12, (M % 12).toNat, d.toNat, 0⟩ := by
  have e0 : 0 ≤ d - 1 := by omega
  have e3 : (d - 1).toNat = d.toNat - 1 := by omega
  simp only [makeDay, JSDate.addDays, e0, if_true, e3]
  rw [iterate_nextDay (d.toNat - 1) _ _ 1 0 (by omega)]
  congr 1
  omega

theorem makeDay_of_valid (y : Int) (m d : Nat) (hm : m ≤ 11) (h1 : 1 ≤ d)
    (h2 : d ≤ monthLength y m) : makeDay y m d = ⟨y, m, d, 0⟩ := by
  have e1 : y + (m : Int) / 12 = y := by omega
  have e2 : ((m : Int) % 12).toNat = m := by omega
  have e4 : ((d : Int)).toNat = d := by omega
  have := makeDay_in_month y m d (by omega) (by rw [e1, e2, e4]; exact h2)
  rw [this, e1, e2, e4]

theorem makeDay_zero (y : Int) (m : Nat) (hm : m ≤ 11) :
    makeDay y ((m : Int) + 1) 0 = ⟨y, m, monthLength y m, 0⟩ := by
  have h0 : ¬ ((0 : Int) ≤ 0 - 1) := by omega
  have e3 : (-((0 : Int) - 1)).toNat = 1 := by rfl
  simp only [makeDay, JSDate.addDays, h0, if_false, e3, Function.iterate_one]
  by_cases h : m = 11
  · subst h
    simp [JSDate.prevDay, monthLength]
  · have e1 : y + ((m : Int) + 1) / 12 = y := by omega
    have e2 : (((m : Int) + 1) % 12).toNat = m + 1 := by omega
    simp [JSDate.prevDay, e1, e2]

theorem makeDay_valid (y m d : Int) : (makeDay y m d).valid = true := by
  unfold makeDay
  apply JSDate.addDays_valid
  rw [JSDate.valid_iff]
  have := monthLength_ge (y + m / 12) (m % 12).toNat
  simp only [msPerDay]
  omega

theorem makeDay_ms (y m d : Int) : (makeDay y m d).ms = 0 := by
  unfold makeDay
  rw [JSDate.addDays_ms]

theorem previousMonth_eq (y : Int) (m : Nat) (hm : m ≤ 11) :
    y + ((m : Int) + -1) / 12 = (Spec.previousMonth y m).1 ∧
    (((m : Int) + -1) % 12).toNat = (Spec.previousMonth y m).2 ∧
    (Spec.previousMonth y m).2 ≤ 11 := by
  unfold Spec.previousMonth
  split
  · next h => subst h; simp; omega
  · next h => simp; omega

/-! ## Time zones and the `Date` setters -/

theorem localTime_valid (env : Env) (t : JSDate) (h : t.valid = true) :
    (localTime env t).valid = true :=
  JSDate.addMs_valid t _ h

theorem utcTime_valid (env : Env) (l : JSDate) (h : l.valid = true) :
    (utcTime env l).valid = true :=
  JSDate.addMs_valid l _ h

theorem localTime_ms_lt (env : Env) (t : JSDate) : (localTime env t).ms < msPerDay :=
  JSDate.addMs_ms_lt t _

theorem JSDate.sameDay_trans (a b c : JSDate) (h1 : a.sameDay b = true)
    (h2 : b.sameDay c = true) : a.sameDay c = true := by
  rw [JSDate.sameDay_iff] at h1 h2 ⊢
  exact ⟨h1.1.trans h2.1, h1.2.1.trans h2.2.1, h1.2.2.trans h2.2.2⟩

/-- In a day-stable zone `setFullYear(y, m, d)` lands on the day
`MakeDay(y, m, d)` of the local calendar. -/
theorem local_setFullYear (env : Env) (hst : env.dayStable) (t : JSDate) (y m d : Int) :
    (t.setFullYear env y m d).valid = true ∧
    (localTime env (t.setFullYear env y m d)).sameDay (makeDay y m d) = true := by
  have hl : ({ makeDay y m d with ms := (localTime env t).ms } : JSDate).valid = true :=
    JSDate.withMs_valid _ _ (makeDay_valid y m d) (localTime_ms_lt env t)
  exact ⟨utcTime_valid env _ hl, hst _ hl⟩

/-- In a day-stable zone `setMonth(m, d)` lands on the day `MakeDay(year, m, d)`
of the local calendar, for the local year of the date. -/
theorem local_setMonth (env : Env) (hst : env.dayStable) (t : JSDate) (m d : Int) :
    (t.setMonth env m d).valid = true ∧
    (localTime env (t.setMonth env m d)).sameDay (makeDay (localTime env t).year m d) =
      true := by
  have hl : ({ makeDay (localTime env t).year m d with ms := (localTime env t).ms } :
      JSDate).valid = true :=
    JSDate.withMs_valid _ _ (makeDay_valid _ m d) (localTime_ms_lt env t)
  exact ⟨utcTime_valid env _ hl, hst _ hl⟩

/-- In a day-stable zone `setHours(0, 0, 0, 0)` stays on the local day. -/
theorem local_setHours0 (env : Env) (hst : env.dayStable) (t : JSDate) (h : t.valid = true) :
    (t.setHours0 env).valid = true ∧
    (localTime env (t.setHours0 env)).sameDay (localTime env t) = true := by
  have hl : ({ localTime env t with ms := 0 } : JSDate).valid = true :=
    JSDate.withMs_valid _ _ (localTime_valid env t h) (by decide)
  exact ⟨utcTime_valid env _ hl, hst _ hl⟩

/-! ## date-fns -/

/-- In a day-stable zone `getDaysInMonth` is the length of the local month of
the date. -/
theorem getDaysInMonth_eq (env : Env) (hst : env.dayStable) (x : JSDate)
    (hx : x.valid = true) :
    dateFns.getDaysInMonth env x =
      monthLength (localTime env x).year (localTime env x).month := by
  have hv := (JSDate.valid_iff _).mp (localTime_valid env x hx)
  obtain ⟨h1v, h1⟩ := local_setFullYear env hst epoch (localTime env x).year
    (((localTime env x).month : Int) + 1) 0
  obtain ⟨_, h2⟩ := local_setHours0 env hst _ h1v
  have h3 := JSDate.sameDay_trans _ _ _ h2 h1
  rw [makeDay_zero _ _ hv.1, JSDate.sameDay_iff] at h3
  exact h3.2.2

theorem addMonths_def (env : Env) (t : JSDate) (amount : Int) :
    dateFns.addMonths env t amount =
      t.setMonth env (((localTime env t).month : Int) + amount)
        (min ((dateFns.getDaysInMonth env ((epoch.setFullYear env (localTime env t).year
          (((localTime env t).month : Int) + amount) 1).setHours0 env) : Nat) : Int)
          ((localTime env t).date : Int)) := rfl

/-- In a day-stable zone `addMonths(date, -1)` falls in the month before the
local month of the date. -/
theorem local_addMonths_minus_one (env : Env) (hst : env.dayStable) (t : JSDate)
    (ht : t.valid = true) :
    (dateFns.addMonths env t (-1)).valid = true ∧
    (localTime env (dateFns.addMonths env t (-1))).year =
      (Spec.previousMonth (localTime env t).year (localTime env t).month).1 ∧
    (localTime env (dateFns.addMonths env t (-1))).month =
      (Spec.previousMonth (localTime env t).year (localTime env t).month).2 := by
  have hv := (JSDate.valid_iff _).mp (localTime_valid env t ht)
  rw [addMonths_def]
  generalize hl : localTime env t = l at hv ⊢
  obtain ⟨Y, M, D, X⟩ := l
  simp only at hv ⊢
  obtain ⟨e1, e2, e3⟩ := previousMonth_eq Y M hv.1
  have hlen := monthLength_ge (Spec.previousMonth Y M).1 (Spec.previousMonth Y M).2
  -- the first of the desired month
  obtain ⟨h1v, h1⟩ := local_setFullYear env hst epoch Y ((M : Int) + -1) 1
  obtain ⟨h2v, h2⟩ := local_setHours0 env hst _ h1v
  have h3 := JSDate.sameDay_trans _ _ _ h2 h1
  rw [makeDay_in_month _ _ 1 (by omega) (by rw [e1, e2]; simp; omega), e1, e2] at h3
  simp only [JSDate.sameDay_iff] at h3
  have hdays := getDaysInMonth_eq env hst _ h2v
  rw [h3.1, h3.2.1] at hdays
  rw [hdays]
  -- the clamped day of the desired month
  obtain ⟨h4v, h4⟩ := local_setMonth env hst t ((M : Int) + -1)
    (min ((monthLength (Spec.previousMonth Y M).1 (Spec.previousMonth Y M).2 : Nat) : Int)
      (D : Int))
  rw [hl, makeDay_in_month _ _ _ (by omega) (by rw [e1, e2]; omega)] at h4
  simp only [JSDate.sameDay_iff, e1, e2] at h4
  exact ⟨h4v, h4.1, h4.2.1⟩

/-- In a day-stable zone `lastDayOfMonth` is the last day of the local month of
the date. -/
theorem local_lastDayOfMonth (env : Env) (hst : env.dayStable) (x : JSDate)
    (hx : x.valid = true) :
    (localTime env (dateFns.lastDayOfMonth env x)).sameDay
      ⟨(localTime env x).year, (localTime env x).month,
        monthLength (localTime env x).year (localTime env x).month, 0⟩ = true := by
  have hv := (JSDate.valid_iff _).mp (localTime_valid env x hx)
  obtain ⟨h1v, h1⟩ := local_setFullYear env hst x (localTime env x).year
    (((localTime env x).month : Int) + 1) 0
  obtain ⟨_, h2⟩ := local_setHours0 env hst _ h1v
  have h3 := JSDate.sameDay_trans _ _ _ h2 h1
  rw [makeDay_zero _ _ hv.1] at h3
  exact h3

/-- In a day-stable zone the last day of the month before falls on the last
calendar day of the month preceding the local month of the date. -/
theorem local_lastDay_of_addMonths (env : Env) (hst : env.dayStable) (t : JSDate)
    (ht : t.valid = true) :
    (localTime env (dateFns.lastDayOfMonth env (dateFns.addMonths env t (-1)))).sameDay
      (Spec.lastDayOfPreviousMonth (localTime env t).year (localTime env t).month) = true := by
  obtain ⟨hv, hy, hm⟩ := local_addMonths_minus_one env hst t ht
  have h := local_lastDayOfMonth env hst _ hv
  rw [hy, hm] at h
  exact h

theorem formatLocal_sameDay (a b : JSDate) (h : a.sameDay b = true)
    (formatStr : List dateFns.Token) :
    dateFns.formatLocal a formatStr = dateFns.formatLocal b formatStr := by
  obtain ⟨y1, m1, d1, x1⟩ := a
  obtain ⟨y2, m2, d2, x2⟩ := b
  rw [JSDate.sameDay_iff] at h
  simp only at h
  obtain ⟨rfl, rfl, rfl⟩ := h
  unfold dateFns.formatLocal
  congr 1

/-- A zone that keeps one offset is day-stable. -/
theorem fixedOffset_dayStable (env : Env) (c : Int) (h : env.fixedOffset c) :
    env.dayStable := by
  intro l hl
  have e := JSDate.addMs_neg_addMs l (-c) hl
  rw [neg_neg] at e
  unfold localTime utcTime
  rw [h.1, h.1, e, JSDate.sameDay_iff]
  exact ⟨rfl, rfl, rfl⟩

/-- In a zone that keeps one offset, date-fns reads a valid calendar date
`YYYY-MM-DD` as the start of that day on the clocks of the process. -/
theorem fixedOffset_parse (env : Env) (c : Int) (s : String) (y m d : Nat)
    (h : env.fixedOffset c) (hsplit : dateFns.splitCalendar s = some (y, m, d))
    (hm : 1 ≤ m ∧ m ≤ 12) (hd : 1 ≤ d ∧ d ≤ monthLength y (m - 1)) :
    ∃ t : JSDate, dateFns.parse env (some (.str s)) = some t ∧ t.valid = true ∧
      localTime env t = ⟨y, m - 1, d, 0⟩ := by
  have e : ((m : Int) - 1) = ((m - 1 : Nat) : Int) := by omega
  have hday : makeDay y ((m : Int) - 1) d = ⟨y, m - 1, d, 0⟩ := by
    rw [e, makeDay_of_valid y (m - 1) d (by omega) hd.1 hd.2]
  have hv : (⟨y, m - 1, d, 0⟩ : JSDate).valid = true := by
    rw [JSDate.valid_iff]
    simp only [msPerDay]
    omega
  refine ⟨(⟨y, m - 1, d, 0⟩ : JSDate).addMs (-c), ?_, JSDate.addMs_valid _ _ hv, ?_⟩
  · simp only [dateFns.parse, hsplit, hday, h.2]
  · have e2 := JSDate.addMs_neg_addMs ⟨y, m - 1, d, 0⟩ (-c) hv
    rw [neg_neg] at e2
    unfold localTime
    rw [h.1, e2]

theorem fixedOffset_readsInMonth (env : Env) (c : Int) (s : String) (y m d : Nat)
    (h : env.fixedOffset c) (hsplit : dateFns.splitCalendar s = some (y, m, d))
    (hm : 1 ≤ m ∧ m ≤ 12) (hd : 1 ≤ d ∧ d ≤ monthLength y (m - 1)) :
    readsInMonth env (some (.str s)) y m := by
  obtain ⟨t, hp, hv, hl⟩ := fixedOffset_parse env c s y m d h hsplit hm hd
  refine ⟨t, hp, hv, ?_, ?_⟩
  · rw [hl]
  · rw [hl]
    simp only
    omega

/-! ## A zone with daylight saving time -/

theorem monthLength_le (y : Int) (m : Nat) : monthLength y m ≤ 31 := by
  unfold monthLength
  split <;> try omega
  split <;> omega

theorem JSDate.addMs_neg_of_lt (t : JSDate) (o : Nat) (ho : o < msPerDay)
    (ht : t.ms < msPerDay) :
    t.addMs (-(o : Int)) =
      if o ≤ t.ms then { t with ms := t.ms - o }
      else { t.prevDay with ms := t.ms + msPerDay - o } := by
  unfold msPerDay at ho ht
  split
  · next h =>
    have hq : ((t.ms : Int) + -(o : Int)) / 86400000 = 0 := by omega
    have hr : (((t.ms : Int) + -(o : Int)) % 86400000).toNat = t.ms - o := by omega
    simp only [JSDate.addMs, msPerDay, Nat.cast_ofNat, hq, hr, JSDate.addDays_zero]
  · next h =>
    have hq : ((t.ms : Int) + -(o : Int)) / 86400000 = -1 := by omega
    have hr : (((t.ms : Int) + -(o : Int)) % 86400000).toNat = t.ms + 86400000 - o := by
      omega
    simp only [JSDate.addMs, msPerDay, Nat.cast_ofNat, hq, hr]
    rfl

theorem JSDate.addMs_pos_of_lt (t : JSDate) (o : Nat) (ho : o < msPerDay)
    (ht : t.ms < msPerDay) :
    t.addMs (o : Int) =
      if t.ms + o < msPerDay then { t with ms := t.ms + o }
      else { t.nextDay with ms := t.ms + o - msPerDay } := by
  unfold msPerDay at ho ht
  split
  · next h =>
    unfold msPerDay at h
    have hq : ((t.ms : Int) + (o : Int)) / 86400000 = 0 := by omega
    have hr : (((t.ms : Int) + (o : Int)) % 86400000).toNat = t.ms + o := by omega
    simp only [JSDate.addMs, msPerDay, Nat.cast_ofNat, hq, hr, JSDate.addDays_zero]
  · next h =>
    unfold msPerDay at h
    have hq : ((t.ms : Int) + (o : Int)) / 86400000 = 1 := by omega
    have hr : (((t.ms : Int) + (o : Int)) % 86400000).toNat = t.ms + o - 86400000 := by
      omega
    simp only [JSDate.addMs, msPerDay, Nat.cast_ofNat, hq, hr]
    rfl

theorem JSDate.before_iff (a b : JSDate) :
    a.before b = true ↔ a.year < b.year ∨ (a.year = b.year ∧ (a.month < b.month ∨
      (a.month = b.month ∧ (a.date < b.date ∨ (a.date = b.date ∧ a.ms < b.ms))))) := by
  simp [JSDate.before]

theorem auckland_before_of_same_day (l : JSDate) (hl : l.valid = true)
    (hb : l.before ⟨2006, 9, 1, 10800000⟩ = true) (h12 : 43200000 ≤ l.ms) :
    ({ l with ms := l.ms - 43200000 } : JSDate).before ⟨2006, 8, 30, 50400000⟩ = true := by
  obtain ⟨y, m, d, x⟩ := l
  rw [JSDate.valid_iff] at hl
  rw [JSDate.before_iff] at hb ⊢
  simp only [msPerDay] at hl hb h12 ⊢
  have h30 : y = 2006 → m = 8 → monthLength y m = 30 := by
    intro h1 h2; subst h1; subst h2; rfl
  omega

theorem auckland_before_of_day_before (l : JSDate) (hl : l.valid = true)
    (hb : l.before ⟨2006, 9, 1, 10800000⟩ = true) (h12 : ¬ 43200000 ≤ l.ms)
    (hgap : l.ms < 7200000 ∨ ¬ (l.year = 2006 ∧ l.month = 9 ∧ l.date = 1)) :
    ({ l.prevDay with ms := l.ms + msPerDay - 43200000 } : JSDate).before
      ⟨2006, 8, 30, 50400000⟩ = true := by
  obtain ⟨y, m, d, x⟩ := l
  rw [JSDate.valid_iff] at hl
  rw [JSDate.before_iff] at hb ⊢
  simp only [msPerDay] at hl hb h12 hgap ⊢
  have h30 : y = 2006 → m - 1 = 8 → monthLength y (m - 1) = 30 := by
    intro h1 h2; subst h1; rw [h2]; rfl
  have h30a : y = 2006 → m = 8 → monthLength y m = 30 := by
    intro h1 h2; subst h1; subst h2; rfl
  unfold JSDate.prevDay
  simp only
  split
  · simp only; omega
  · split
    · simp only; omega
    · simp only; omega

theorem auckland_not_before_of_same_day (l : JSDate) (hl : l.valid = true)
    (hb : l.before ⟨2006, 9, 1, 10800000⟩ = false) (h13 : 46800000 ≤ l.ms) :
    ({ l with ms := l.ms - 46800000 } : JSDate).before ⟨2006, 8, 30, 50400000⟩ = false := by
  obtain ⟨y, m, d, x⟩ := l
  rw [JSDate.valid_iff] at hl
  rw [Bool.eq_false_iff, ne_eq, JSDate.before_iff] at hb ⊢
  simp only [msPerDay] at hl hb h13 ⊢
  omega

theorem auckland_not_before_of_day_before (l : JSDate) (hl : l.valid = true)
    (hb : l.before ⟨2006, 9, 1, 10800000⟩ = false) (h13 : ¬ 46800000 ≤ l.ms) :
    ({ l.prevDay with ms := l.ms + msPerDay - 46800000 } : JSDate).before
      ⟨2006, 8, 30, 50400000⟩ = false := by
  obtain ⟨y, m, d, x⟩ := l
  rw [JSDate.valid_iff] at hl
  rw [Bool.eq_false_iff, ne_eq, JSDate.before_iff] at hb ⊢
  simp only [msPerDay] at hl hb h13 ⊢
  have h30 : y = 2006 → m - 1 = 8 → monthLength y (m - 1) = 30 := by
    intro h1 h2; subst h1; rw [h2]; rfl
  have hlen := monthLength_ge y (m - 1)
  unfold JSDate.prevDay
  simp only
  split
  · simp only; omega
  · split
    · simp only; omega
    · simp only; omega

theorem aucklandEnv_localTZA_utc (t : JSDate) :
    aucklandEnv.localTZA t true =
      if t.before ⟨2006, 8, 30, 50400000⟩ = true then 43200000 else 46800000 := rfl

theorem aucklandEnv_localTZA_local (l : JSDate) :
    aucklandEnv.localTZA l false =
      if l.before ⟨2006, 9, 1, 10800000⟩ = true then 43200000 else 46800000 := rfl

/-- A local time between 02:00 and 03:00 of 1 October 2006, which the clocks of
Auckland skip, is read an hour later on the same day. -/
theorem auckland_skipped_hour (x : Nat) (hx2 : 7200000 ≤ x) (hx3 : x < 10800000) :
    (localTime aucklandEnv (utcTime aucklandEnv ⟨2006, 9, 1, x⟩)).sameDay ⟨2006, 9, 1, x⟩ =
      true := by
  have h12lt : 43200000 < msPerDay := by decide
  have h13lt : 46800000 < msPerDay := by decide
  have c12 : ((43200000 : Nat) : Int) = 43200000 := by norm_num
  have c13 : ((46800000 : Nat) : Int) = 46800000 := by norm_num
  have hx : x < msPerDay := by
    simp only [msPerDay]; omega
  have h12 : ¬ 43200000 ≤ x := by omega
  have hb : (⟨2006, 9, 1, x⟩ : JSDate).before ⟨2006, 9, 1, 10800000⟩ = true := by
    rw [JSDate.before_iff]
    simpa using hx3
  have h1 := aucklandEnv_localTZA_local ⟨2006, 9, 1, x⟩
  rw [if_pos hb] at h1
  have e12 := JSDate.addMs_neg_of_lt ⟨2006, 9, 1, x⟩ 43200000 h12lt hx
  rw [c12] at e12
  simp only [if_neg h12] at e12
  have hprev : (⟨2006, 9, 1, x⟩ : JSDate).prevDay = ⟨2006, 8, 30, x⟩ := by
    simp [JSDate.prevDay, monthLength]
  have hms : x + msPerDay - 43200000 = x + 43200000 := by
    simp only [msPerDay]; omega
  rw [hprev, hms] at e12
  have hu : utcTime aucklandEnv ⟨2006, 9, 1, x⟩ = ⟨2006, 8, 30, x + 43200000⟩ := by
    unfold utcTime
    rw [h1, e12]
  have hnb : (⟨2006, 8, 30, x + 43200000⟩ : JSDate).before ⟨2006, 8, 30, 50400000⟩ =
      false := by
    rw [Bool.eq_false_iff, ne_eq, JSDate.before_iff]
    simp
    omega
  have h2 := aucklandEnv_localTZA_utc ⟨2006, 8, 30, x + 43200000⟩
  rw [hnb] at h2
  simp only [Bool.false_eq_true, if_false] at h2
  have hnot : ¬ (x + 43200000 + 46800000 < msPerDay) := by
    simp only [msPerDay]; omega
  have hlt : x + 43200000 < msPerDay := by
    simp only [msPerDay]; omega
  have e3 := JSDate.addMs_pos_of_lt ⟨2006, 8, 30, x + 43200000⟩ 46800000 h13lt hlt
  rw [c13] at e3
  simp only [if_neg hnot] at e3
  have hnext : (⟨2006, 8, 30, x + 43200000⟩ : JSDate).nextDay = ⟨2006, 9, 1, x + 43200000⟩ := by
    simp [JSDate.nextDay, monthLength]
  rw [hnext] at e3
  unfold localTime
  rw [hu, h2, e3, JSDate.sameDay_iff]
  exact ⟨rfl, rfl, rfl⟩

/-- The clocks of Auckland around the start of daylight saving time never move
a local time to another calendar day: a local time that the clocks skip is read
an hour later on the same day. -/
theorem aucklandEnv_dayStable : aucklandEnv.dayStable := by
  intro l hl
  have hx : l.ms < msPerDay := ((JSDate.valid_iff l).mp hl).2.2.2
  have hrefl : l.sameDay l = true := by rw [JSDate.sameDay_iff]; exact ⟨rfl, rfl, rfl⟩
  have key : ∀ o : Int, aucklandEnv.localTZA l false = o →
      aucklandEnv.localTZA (l.addMs (-o)) true = o →
      (localTime aucklandEnv (utcTime aucklandEnv l)).sameDay l = true := by
    intro o h1 h2
    have e := JSDate.addMs_neg_addMs l (-o) hl
    rw [neg_neg] at e
    unfold localTime utcTime
    rw [h1, h2, e]
    exact hrefl
  have h12lt : 43200000 < msPerDay := by decide
  have h13lt : 46800000 < msPerDay := by decide
  have c12 : ((43200000 : Nat) : Int) = 43200000 := by norm_num
  have c13 : ((46800000 : Nat) : Int) = 46800000 := by norm_num
  have e12 := JSDate.addMs_neg_of_lt l 43200000 h12lt hx
  have e13 := JSDate.addMs_neg_of_lt l 46800000 h13lt hx
  rw [c12] at e12
  rw [c13] at e13
  have h1 := aucklandEnv_localTZA_local l
  by_cases hb : l.before ⟨2006, 9, 1, 10800000⟩ = true
  · rw [if_pos hb] at h1
    by_cases h12 : 43200000 ≤ l.ms
    · apply key 43200000 h1
      rw [aucklandEnv_localTZA_utc, e12, if_pos h12,
        if_pos (auckland_before_of_same_day l hl hb h12)]
    · by_cases hgap : l.ms < 7200000 ∨ ¬ (l.year = 2006 ∧ l.month = 9 ∧ l.date = 1)
      · apply key 43200000 h1
        rw [aucklandEnv_localTZA_utc, e12, if_neg h12,
          if_pos (auckland_before_of_day_before l hl hb h12 hgap)]
      · obtain ⟨y, m, d, x⟩ := l
        simp only [not_or, not_lt, not_not] at hgap
        obtain ⟨hx2, rfl, rfl, rfl⟩ := hgap
        rw [JSDate.before_iff] at hb
        have hx3 : x < 10800000 := by simpa using hb
        exact auckland_skipped_hour x hx2 hx3
  · have hbf : l.before ⟨2006, 9, 1, 10800000⟩ = false := Bool.eq_false_iff.mpr hb
    rw [if_neg hb] at h1
    by_cases h13 : 46800000 ≤ l.ms
    · apply key 46800000 h1
      rw [aucklandEnv_localTZA_utc, e13, if_pos h13,
        auckland_not_before_of_same_day l hl hbf h13]
      simp only [Bool.false_eq_true, if_false]
    · apply key 46800000 h1
      rw [aucklandEnv_localTZA_utc, e13, if_neg h13,
        auckland_not_before_of_day_before l hl hbf h13]
      simp only [Bool.false_eq_true, if_false]

/-! ## Decimal digits -/

theorem toDigitsCore_append (fuel : Nat) : ∀ (n : Nat) (ds : List Char),
    Nat.toDigitsCore 10 fuel n ds = Nat.toDigitsCore 10 fuel n [] ++ ds := by
  induction fuel with
  | zero => intro n ds; simp [Nat.toDigitsCore]
  | succ f ih =>
    intro n ds
    simp only [Nat.toDigitsCore]
    split
    · simp
    · rw [ih (n / 10) (Nat.digitChar (n % 10) :: ds), ih (n / 10) [Nat.digitChar (n % 10)]]
      simp

theorem toDigitsCore_fuel (f1 : Nat) : ∀ (f2 n : Nat) (ds : List Char), n < f1 → n < f2 →
    Nat.toDigitsCore 10 f1 n ds = Nat.toDigitsCore 10 f2 n ds := by
  induction f1 with
  | zero => intro f2 n ds h; omega
  | succ f ih =>
    intro f2 n ds h1 h2
    cases f2 with
    | zero => omega
    | succ g =>
      simp only [Nat.toDigitsCore]
      split
      · rfl
      · next h => exact ih g (n / 10) _ (by omega) (by omega)

theorem toDigits_lt (n : Nat) (h : n < 10) : Nat.toDigits 10 n = [Nat.digitChar n] := by
  have h0 : n / 10 = 0 := by omega
  have h1 : n % 10 = n := by omega
  simp [Nat.toDigits, Nat.toDigitsCore, h0, h1]

theorem toDigits_ge (n : Nat) (h : 10 ≤ n) :
    Nat.toDigits 10 n = Nat.toDigits 10 (n / 10) ++ [Nat.digitChar (n % 10)] := by
  have h0 : ¬ n / 10 = 0 := by omega
  have key : Nat.toDigitsCore 10 (n + 1) n [] =
      Nat.toDigitsCore 10 n (n / 10) [Nat.digitChar (n % 10)] := by
    simp only [Nat.toDigitsCore, h0, if_false]
  unfold Nat.toDigits
  rw [key, toDigitsCore_append, toDigitsCore_fuel n (n / 10 + 1) (n / 10) [] (by omega) (by omega)]

theorem natToString_data (n : Nat) : (natToString n).data = Nat.toDigits 10 n := rfl

theorem toDigits_length_pos (n : Nat) : 1 ≤ (Nat.toDigits 10 n).length := by
  by_cases h : n < 10
  · rw [toDigits_lt n h]; simp
  · rw [toDigits_ge n (by omega)]; simp

/-- Two digits for a number below 100. -/
theorem padZeros_two (n : Nat) (h : n < 100) :
    padZeros 2 (natToString n).data = [Nat.digitChar (n / 10), Nat.digitChar (n % 10)] := by
  rw [natToString_data]
  by_cases h1 : n < 10
  · have e0 : n / 10 = 0 := by omega
    have e1 : n % 10 = n := by omega
    rw [toDigits_lt n h1, e0, e1]
    rfl
  · rw [toDigits_ge n (by omega), toDigits_lt (n / 10) (by omega)]
    rfl

/-- Four digits for a number below 10000. -/
theorem padZeros_four (n : Nat) (h : n < 10000) :
    padZeros 4 (natToString n).data =
      [Nat.digitChar (n / 1000), Nat.digitChar (n / 100 % 10), Nat.digitChar (n / 10 % 10),
        Nat.digitChar (n % 10)] := by
  rw [natToString_data]
  by_cases h1 : n < 10
  · have e0 : n / 1000 = 0 := by omega
    have e1 : n / 100 % 10 = 0 := by omega
    have e2 : n / 10 % 10 = 0 := by omega
    have e3 : n % 10 = n := by omega
    rw [toDigits_lt n h1, e0, e1, e2, e3]
    rfl
  · rw [toDigits_ge n (by omega)]
    by_cases h2 : n < 100
    · have e0 : n / 1000 = 0 := by omega
      have e1 : n / 100 % 10 = 0 := by omega
      have e2 : n / 10 % 10 = n / 10 := by omega
      rw [toDigits_lt (n / 10) (by omega), e0, e1, e2]
      rfl
    · rw [toDigits_ge (n / 10) (by omega)]
      have e4 : n / 10 / 10 = n / 100 := by omega
      by_cases h3 : n < 1000
      · have e0 : n / 1000 = 0 := by omega
        have e1 : n / 100 % 10 = n / 100 := by omega
        rw [e4, toDigits_lt (n / 100) (by omega), e0, e1]
        rfl
      · rw [e4, toDigits_ge (n / 100) (by omega)]
        have e5 : n / 100 / 10 = n / 1000 := by omega
        rw [e5, toDigits_lt (n / 1000) (by omega)]
        rfl

/-- The integer part and two more digits, for the digits `toFixed(2)` splits. -/
theorem padZeros_three_split (n : Nat) :
    padZeros 3 (natToString n).data =
      (natToString (n / 100)).data ++ [Nat.digitChar (n / 10 % 10), Nat.digitChar (n % 10)] := by
  rw [natToString_data, natToString_data]
  by_cases h1 : n < 10
  · have e0 : n / 100 = 0 := by omega
    have e2 : n / 10 % 10 = 0 := by omega
    have e3 : n % 10 = n := by omega
    rw [toDigits_lt n h1, e0, e2, e3]
    rfl
  · rw [toDigits_ge n (by omega)]
    by_cases h2 : n < 100
    · have e0 : n / 100 = 0 := by omega
      have e2 : n / 10 % 10 = n / 10 := by omega
      rw [toDigits_lt (n / 10) (by omega), e0, e2]
      rfl
    · rw [toDigits_ge (n / 10) (by omega)]
      have e4 : n / 10 / 10 = n / 100 := by omega
      rw [e4]
      have hl := toDigits_length_pos (n / 100)
      simp only [padZeros, List.length_append, List.length_singleton]
      have : 3 - ((Nat.toDigits 10 (n / 100)).length + 1 + 1) = 0 := by omega
      rw [this]
      simp

/-! ## `toFixed` -/

theorem abs_eq_natAbs_div_den (q : ℚ) : |q| = (q.num.natAbs : ℚ) / (q.den : ℚ) := by
  have hd : (0 : ℚ) < q.den := by exact_mod_cast q.den_pos
  have h1 : |q| = |(q.num : ℚ)| / |(q.den : ℚ)| := by
    rw [← abs_div, Rat.num_div_den]
  rw [h1, abs_of_pos hd]
  congr 1
  rw [Nat.cast_natAbs, Int.cast_abs]

theorem roundScaled_eq (q : ℚ) : roundScaled q 2 = Spec.hundredths q := by
  have hd : (0 : ℚ) < q.den := by exact_mod_cast q.den_pos
  have hx : |q| * 100 + 1 / 2 =
      ((2 * q.num.natAbs * 10 ^ 2 + q.den : ℕ) : ℚ) / ((2 * q.den : ℕ) : ℚ) := by
    rw [abs_eq_natAbs_div_den]
    push_cast
    field_simp
    ring
  unfold Spec.hundredths roundScaled
  rw [hx, Rat.floor_natCast_div_natCast, ← Int.natCast_div, Int.toNat_natCast]

theorem toFixed_two (env : Env) (q : ℚ) (h : atLeast1e21 q = false) :
    toFixed env q 2 = Spec.twoDecimals q := by
  simp only [toFixed, h, Bool.false_eq_true, if_false, Spec.twoDecimals]
  congr 1
  rw [padZeros_three_split, roundScaled_eq]
  have hl := toDigits_length_pos (Spec.hundredths q / 100)
  rw [natToString_data]
  congr 1
  simp only [List.length_append, List.length_cons, List.length_nil]
  have e : (Nat.toDigits 10 (Spec.hundredths q / 100)).length + (0 + 1 + 1) - 2 =
      (Nat.toDigits 10 (Spec.hundredths q / 100)).length := by omega
  rw [e, List.take_left, List.drop_left]

/-! ## Properties of the merge on ordinary data -/

theorem JProps.get_set (k k2 : String) (v : JVal) :
    ∀ ps : JProps, (ps.set k v).get k2 = if k = k2 then some v else ps.get k2
  | .nil => by simp [JProps.set, JProps.get]
  | .cons k1 w rest => by
    have ih := JProps.get_set k k2 v rest
    by_cases h1 : k1 = k
    · subst h1
      by_cases h2 : k1 = k2 <;> simp [JProps.set, JProps.get, h2]
    · by_cases h2 : k1 = k2
      · subst h2
        have h3 : ¬ k = k1 := fun h => h1 h.symm
        simp [JProps.set, JProps.get, h1, h3]
      · simp [JProps.set, JProps.get, h1, h2, ih]

theorem JProps.get_eq_none_of_not_mem (k : String) :
    ∀ ps : JProps, ps.keys.contains k = false → ps.get k = none
  | .nil, _ => rfl
  | .cons k1 w rest, h => by
    simp [JProps.keys] at h
    have ih := JProps.get_eq_none_of_not_mem k rest (by simpa using h.2)
    have h1 : ¬ k1 = k := fun e => h.1 e.symm
    simp [JProps.get, h1, ih]

theorem JProps.not_mem_of_get_eq_none (k : String) :
    ∀ ps : JProps, ps.get k = none → ps.keys.contains k = false
  | .nil, _ => rfl
  | .cons k1 w rest, h => by
    by_cases h1 : k1 = k
    · simp [JProps.get, h1] at h
    · simp only [JProps.get, h1, if_false] at h
      have ih := JProps.not_mem_of_get_eq_none k rest h
      have h2 : ¬ k = k1 := fun e => h1 e.symm
      simp only [List.contains_eq_any_beq, List.any_eq_false, beq_iff_eq] at ih ⊢
      intro x hx
      simp only [JProps.keys, List.mem_cons] at hx
      rcases hx with hx | hx
      · subst hx; exact h2
      · exact ih x hx

theorem JProps.wf_get (k : String) (v : JVal) :
    ∀ ps : JProps, ps.wf = true → ps.get k = some v → v.wf = true
  | .nil, _, h => by simp [JProps.get] at h
  | .cons k1 w rest, hwf, h => by
    simp only [JProps.wf, Bool.and_eq_true] at hwf
    by_cases h1 : k1 = k
    · simp only [JProps.get, h1, if_true, Option.some.injEq] at h
      subst h
      exact hwf.1.2
    · simp only [JProps.get, h1, if_false] at h
      exact JProps.wf_get k v rest hwf.2 h

/-- A key the source does not have is left as it was. -/
theorem get_plainMerge_of_get_none (k : String) :
    ∀ (s d : JProps), s.get k = none → (plainBaseMerge d s).get k = d.get k
  | .nil, d, _ => by simp [plainBaseMerge]
  | .cons k1 sv rest, d, h => by
    by_cases h1 : k1 = k
    · simp [JProps.get, h1] at h
    · simp only [JProps.get, h1, if_false] at h
      rw [plainBaseMerge, get_plainMerge_of_get_none k rest _ h, JProps.get_set]
      simp [h1]

/-- A key the source has holds the merge of the two values. -/
theorem get_plainMerge (k : String) (sv : JVal) :
    ∀ (s d : JProps), s.wf = true → s.get k = some sv →
      (plainBaseMerge d s).get k = some (plainMergeValue (d.get k) sv)
  | .nil, d, _, h => by simp [JProps.get] at h
  | .cons k1 v rest, d, hwf, h => by
    simp only [JProps.wf, Bool.and_eq_true, Bool.not_eq_true'] at hwf
    by_cases h1 : k1 = k
    · subst h1
      simp only [JProps.get, if_true, Option.some.injEq] at h
      subst h
      have hn : rest.get k1 = none := JProps.get_eq_none_of_not_mem k1 rest hwf.1.1
      rw [plainBaseMerge, get_plainMerge_of_get_none k1 rest _ hn, JProps.get_set]
      simp
    · simp only [JProps.get, h1, if_false] at h
      rw [plainBaseMerge, get_plainMerge k sv rest _ hwf.2 h, JProps.get_set]
      simp [h1]

/-- Later source wins: a scalar at a key path of the source is at that path in
the result, whatever the destination holds. -/
theorem getPath_plainMerge_of_source (v : JVal) (hv : v.isScalar = true) :
    ∀ (p : List String) (s d : JProps), s.wf = true → s.getPath p = some v →
      (plainBaseMerge d s).getPath p = some v
  | [], s, d, _, h => by simp [JProps.getPath] at h
  | [k], s, d, hwf, h => by
    simp only [JProps.getPath] at h ⊢
    rw [get_plainMerge k v s d hwf h]
    cases v <;> simp_all [plainMergeValue, JVal.isScalar]
  | k :: k2 :: rest, s, d, hwf, h => by
    simp only [JProps.getPath] at h ⊢
    cases hs : s.get k with
    | none => simp [hs] at h
    | some sv =>
      cases sv with
      | obj sa sp =>
        simp only [hs] at h
        have hwf2 : sp.wf = true := by
          have := JProps.wf_get k _ s hwf hs
          simpa [JVal.wf] using this
        rw [get_plainMerge k _ s d hwf hs]
        cases hd : d.get k with
        | none =>
          simp only [plainMergeValue]
          exact getPath_plainMerge_of_source v hv (k2 :: rest) sp .nil hwf2 h
        | some dv =>
          cases dv with
          | obj a inner =>
            by_cases hc : (sa && !a) = true
            · simp only [plainMergeValue, hc, if_true]
              exact getPath_plainMerge_of_source v hv (k2 :: rest) sp .nil hwf2 h
            · simp only [plainMergeValue, hc, if_false]
              exact getPath_plainMerge_of_source v hv (k2 :: rest) sp inner hwf2 h
          | _ =>
            simp only [plainMergeValue]
            exact getPath_plainMerge_of_source v hv (k2 :: rest) sp .nil hwf2 h
      | _ => simp [hs] at h

/-- An earlier value survives: a key path that the source neither holds nor
cuts keeps the value of the destination. -/
theorem getPath_plainMerge_of_untouched (v : JVal) :
    ∀ (p : List String) (s d : JProps), s.wf = true → s.plainAbove p = true →
      s.getPath p = none → d.getPath p = some v → (plainBaseMerge d s).getPath p = some v
  | [], s, d, _, _, _, h => by simp [JProps.getPath] at h
  | [k], s, d, _, _, hn, h => by
    simp only [JProps.getPath] at hn h ⊢
    rw [get_plainMerge_of_get_none k s d hn]
    exact h
  | k :: k2 :: rest, s, d, hwf, hp, hn, h => by
    simp only [JProps.getPath] at hn h ⊢
    cases hs : s.get k with
    | none =>
      rw [get_plainMerge_of_get_none k s d hs]
      exact h
    | some sv =>
      rw [get_plainMerge k sv s d hwf hs]
      cases hd : d.get k with
      | none => simp [hd] at h
      | some dv =>
        cases dv with
        | obj a inner =>
          simp only [hd] at h
          cases sv with
          | obj sa sp =>
            cases sa with
            | true => simp [JProps.plainAbove, hs] at hp
            | false =>
              have hwf2 : sp.wf = true := by
                have := JProps.wf_get k _ s hwf hs
                simpa [JVal.wf] using this
              simp only [JProps.plainAbove, hs] at hp
              simp only [hs] at hn
              simp only [plainMergeValue, Bool.false_and, Bool.false_eq_true, if_false]
              exact getPath_plainMerge_of_untouched v (k2 :: rest) sp inner hwf2 hp hn h
          | _ => simp [JProps.plainAbove, hs] at hp
        | _ => simp [hd] at h

/-- Where both hold an object at a key path, the result holds the merge of the
two, provided a source array does not face a plain object. -/
theorem getPath_plainMerge_of_both (sa a : Bool) (B A : JProps) (hk : sa = true → a = true) :
    ∀ (p : List String) (s d : JProps), s.wf = true → s.plainAbove p = true →
      s.getPath p = some (.obj sa B) → d.getPath p = some (.obj a A) →
      (plainBaseMerge d s).getPath p = some (.obj a (plainBaseMerge A B))
  | [], s, d, _, _, h, _ => by simp [JProps.getPath] at h
  | [k], s, d, hwf, _, hs, hd => by
    simp only [JProps.getPath] at hs hd ⊢
    rw [get_plainMerge k _ s d hwf hs, hd]
    cases sa with
    | false => simp [plainMergeValue]
    | true => simp [plainMergeValue, hk rfl]
  | k :: k2 :: rest, s, d, hwf, hp, hs, hd => by
    simp only [JProps.getPath] at hs hd ⊢
    cases hsk : s.get k with
    | none => simp [hsk] at hs
    | some sv =>
      rw [get_plainMerge k sv s d hwf hsk]
      cases hdk : d.get k with
      | none => simp [hdk] at hd
      | some dv =>
        cases dv with
        | obj a2 inner =>
          simp only [hdk] at hd
          cases sv with
          | obj sa2 sp =>
            cases sa2 with
            | true => simp [JProps.plainAbove, hsk] at hp
            | false =>
              have hwf2 : sp.wf = true := by
                have := JProps.wf_get k _ s hwf hsk
                simpa [JVal.wf] using this
              simp only [JProps.plainAbove, hsk] at hp
              simp only [hsk] at hs
              simp only [plainMergeValue, Bool.false_and, Bool.false_eq_true, if_false]
              exact getPath_plainMerge_of_both sa a B A hk (k2 :: rest) sp inner hwf2 hp hs hd
          | _ => simp [hsk] at hs
        | _ => simp [hdk] at hd

theorem JProps.wf_getPath (v : JVal) :
    ∀ (p : List String) (s : JProps), s.wf = true → s.getPath p = some v → v.wf = true
  | [], s, _, h => by simp [JProps.getPath] at h
  | [k], s, hwf, h => by
    simp only [JProps.getPath] at h
    exact JProps.wf_get k v s hwf h
  | k :: k2 :: rest, s, hwf, h => by
    simp only [JProps.getPath] at h
    cases hs : s.get k with
    | none => simp [hs] at h
    | some sv =>
      cases sv with
      | obj sa sp =>
        simp only [hs] at h
        have hwf2 : sp.wf = true := by
          have := JProps.wf_get k _ s hwf hs
          simpa [JVal.wf] using this
        exact JProps.wf_getPath v (k2 :: rest) sp hwf2 h
      | _ => simp [hs] at h

/-- A key path whose first key the source lacks is left as it was. -/
theorem getPath_plainMerge_of_head_none (k : String) (rest : List String) (s d : JProps)
    (h : s.get k = none) : (plainBaseMerge d s).getPath (k :: rest) = d.getPath (k :: rest) := by
  cases rest with
  | nil => simp only [JProps.getPath]; exact get_plainMerge_of_get_none k s d h
  | cons k2 rest2 =>
    simp only [JProps.getPath]
    rw [get_plainMerge_of_get_none k s d h]

/-! ## `merge` and the merge on ordinary data -/

theorem JProps.ordinary_get (k : String) (v : JVal) :
    ∀ ps : JProps, ps.ordinary = true → ps.get k = some v → v.ordinary = true
  | .nil, _, h => by simp [JProps.get] at h
  | .cons k1 w rest, ho, h => by
    simp only [JProps.ordinary, Bool.and_eq_true] at ho
    by_cases h1 : k1 = k
    · simp only [JProps.get, h1, if_true, Option.some.injEq] at h
      subst h
      exact ho.1.2
    · simp only [JProps.get, h1, if_false] at h
      exact JProps.ordinary_get k v rest ho.2 h

theorem JProps.ordinary_set (k : String) (v : JVal) (hk1 : k ≠ "length")
    (hk2 : k ≠ "__proto__") (hv : v.ordinary = true) :
    ∀ ps : JProps, ps.ordinary = true → (ps.set k v).ordinary = true
  | .nil, _ => by
    simp [JProps.set, JProps.ordinary, hk1, hk2, hv]
  | .cons k1 w rest, ho => by
    simp only [JProps.ordinary, Bool.and_eq_true] at ho
    by_cases h1 : k1 = k
    · subst h1
      simp only [JProps.set, if_true, JProps.ordinary, Bool.and_eq_true]
      exact ⟨⟨ho.1.1, hv⟩, ho.2⟩
    · simp only [JProps.set, h1, if_false, JProps.ordinary, Bool.and_eq_true]
      exact ⟨ho.1, JProps.ordinary_set k v hk1 hk2 hv rest ho.2⟩

theorem JProps.get_length_of_ordinary :
    ∀ ps : JProps, ps.ordinary = true → ps.get "length" = none
  | .nil, _ => rfl
  | .cons k1 w rest, ho => by
    simp only [JProps.ordinary, Bool.and_eq_true, bne_iff_ne, ne_eq] at ho
    simp only [JProps.get, ho.1.1.1, if_false]
    exact JProps.get_length_of_ordinary rest ho.2

theorem arrayLikeLength_of_ordinary (ps : JProps) (h : ps.ordinary = true) :
    arrayLikeLength ps = none := by
  simp [arrayLikeLength, JProps.get_length_of_ordinary ps h]

theorem assignProp_of_ne_length (env : Env) (isArr : Bool) (object : JProps) (key : String)
    (v : JVal) (h : key ≠ "length") : assignProp env isArr object key v = .ok (object.set key v) := by
  simp [assignProp, h]

mutual
/-- On ordinary data `mergeValue` throws nothing and computes the plain merge,
which is ordinary again. -/
theorem mergeValue_of_ordinary (env : Env) : ∀ (srcValue : JVal) (objValue : Option JVal),
    (∀ v, objValue = some v → v.ordinary = true) → srcValue.ordinary = true →
    mergeValue env objValue srcValue = .ok (plainMergeValue objValue srcValue) ∧
      (plainMergeValue objValue srcValue).ordinary = true
  | .null, _, _, _ => ⟨rfl, rfl⟩
  | .bool _, _, _, _ => ⟨rfl, rfl⟩
  | .num _, _, _, _ => ⟨rfl, rfl⟩
  | .str _, _, _, _ => ⟨rfl, rfl⟩
  | .obj srcArr srcProps, objValue, ho, hs => by
    have hs2 : srcProps.ordinary = true := by simpa [JVal.ordinary] using hs
    have hnil : JProps.nil.ordinary = true := rfl
    cases objValue with
    | none =>
      obtain ⟨h1, h2⟩ := baseMerge_of_ordinary env srcProps srcArr .nil hnil hs2
      simp only [mergeValue, plainMergeValue, h1, JVal.ordinary, h2, and_self]
    | some ov =>
      cases ov with
      | obj objArr objProps =>
        have ho2 : objProps.ordinary = true := by
          simpa [JVal.ordinary] using ho _ rfl
        by_cases hc : (srcArr && !objArr) = true
        · obtain ⟨h1, h2⟩ := baseMerge_of_ordinary env srcProps true .nil hnil hs2
          simp only [mergeValue, plainMergeValue, hc, if_true,
            arrayLikeLength_of_ordinary objProps ho2, h1, JVal.ordinary, h2, and_self]
        · obtain ⟨h1, h2⟩ := baseMerge_of_ordinary env srcProps objArr objProps ho2 hs2
          have hc2 : (srcArr && !objArr) = false := Bool.eq_false_iff.mpr hc
          simp only [mergeValue, plainMergeValue, hc2, Bool.false_eq_true, if_false, h1,
            JVal.ordinary, h2, and_self]
      | null =>
        obtain ⟨h1, h2⟩ := baseMerge_of_ordinary env srcProps srcArr .nil hnil hs2
        simp only [mergeValue, plainMergeValue, h1, JVal.ordinary, h2, and_self]
      | bool _ =>
        obtain ⟨h1, h2⟩ := baseMerge_of_ordinary env srcProps srcArr .nil hnil hs2
        simp only [mergeValue, plainMergeValue, h1, JVal.ordinary, h2, and_self]
      | num _ =>
        obtain ⟨h1, h2⟩ := baseMerge_of_ordinary env srcProps srcArr .nil hnil hs2
        simp only [mergeValue, plainMergeValue, h1, JVal.ordinary, h2, and_self]
      | str _ =>
        obtain ⟨h1, h2⟩ := baseMerge_of_ordinary env srcProps srcArr .nil hnil hs2
        simp only [mergeValue, plainMergeValue, h1, JVal.ordinary, h2, and_self]
/-- On ordinary data `baseMerge` throws nothing and computes the plain merge,
which is ordinary again. -/
theorem baseMerge_of_ordinary (env : Env) : ∀ (source : JProps) (isArr : Bool)
    (object : JProps), object.ordinary = true → source.ordinary = true →
    baseMerge env isArr object source = .ok (plainBaseMerge object source) ∧
      (plainBaseMerge object source).ordinary = true
  | .nil, _, object, ho, _ => ⟨rfl, ho⟩
  | .cons key srcValue rest, isArr, object, ho, hs => by
    simp only [JProps.ordinary, Bool.and_eq_true, bne_iff_ne, ne_eq] at hs
    obtain ⟨⟨⟨hk1, hk2⟩, hv⟩, hrest⟩ := hs
    obtain ⟨h1, h2⟩ := mergeValue_of_ordinary env srcValue (object.get key)
      (fun v hv2 => JProps.ordinary_get key v object ho hv2) hv
    have h3 := JProps.ordinary_set key _ hk1 hk2 h2 object ho
    obtain ⟨h4, h5⟩ := baseMerge_of_ordinary env rest isArr _ h3 hrest
    simp only [baseMerge, plainBaseMerge, hk2, if_false, h1,
      assignProp_of_ne_length env isArr object key _ hk1, h4, h5, and_self]
end

/-- On ordinary data `merge` throws nothing and computes the plain merge. -/
theorem merge_of_ordinary (env : Env) (object source : JProps)
    (ho : object.ordinary = true) (hs : source.ordinary = true) :
    merge env object source = .ok (plainBaseMerge object source) ∧
      (plainBaseMerge object source).ordinary = true :=
  baseMerge_of_ordinary env source false object ho hs

mutual
/-- Whatever `mergeValue` throws is the `RangeError` of an invalid array
length. -/
theorem mergeValue_error (env : Env) : ∀ (srcValue : JVal) (objValue : Option JVal)
    (sofar : Option JVal) (e : JSError),
    mergeValue env objValue srcValue = .error (sofar, e) → e = invalidArrayLength
  | .null, _, _, _, h => by simp [mergeValue] at h
  | .bool _, _, _, _, h => by simp [mergeValue] at h
  | .num _, _, _, _, h => by simp [mergeValue] at h
  | .str _, _, _, _, h => by simp [mergeValue] at h
  | .obj srcArr srcProps, objValue, sofar, e, h => by
    unfold mergeValue at h
    split at h
    · split at h
      · split at h
        · split at h
          · split at h
            · cases h
            · next p e2 hb =>
              have := baseMerge_error env srcProps _ _ p e2 hb
              simp only [Except.error.injEq, Prod.mk.injEq] at h
              rw [← h.2]
              exact this
          · simp only [Except.error.injEq, Prod.mk.injEq] at h
            exact h.2.symm
        · split at h
          · cases h
          · next p e2 hb =>
            have := baseMerge_error env srcProps _ _ p e2 hb
            simp only [Except.error.injEq, Prod.mk.injEq] at h
            rw [← h.2]
            exact this
      · split at h
        · cases h
        · next p e2 hb =>
          have := baseMerge_error env srcProps _ _ p e2 hb
          simp only [Except.error.injEq, Prod.mk.injEq] at h
          rw [← h.2]
          exact this
    · split at h
      · cases h
      · next p e2 hb =>
        have := baseMerge_error env srcProps _ _ p e2 hb
        simp only [Except.error.injEq, Prod.mk.injEq] at h
        rw [← h.2]
        exact this
/-- Whatever `baseMerge` throws is the `RangeError` of an invalid array
length. -/
theorem baseMerge_error (env : Env) : ∀ (source : JProps) (isArr : Bool) (object : JProps)
    (sofar : JProps) (e : JSError),
    baseMerge env isArr object source = .error (sofar, e) → e = invalidArrayLength
  | .nil, _, _, _, _, h => by simp [baseMerge] at h
  | .cons key srcValue rest, isArr, object, sofar, e, h => by
    unfold baseMerge at h
    split at h
    · exact baseMerge_error env rest _ _ sofar e h
    · split at h
      · next v e2 hm =>
        have := mergeValue_error env srcValue _ _ e2 hm
        simp only [Except.error.injEq, Prod.mk.injEq] at h
        rw [← h.2]
        exact this
      · next e2 hm =>
        have := mergeValue_error env srcValue _ _ e2 hm
        simp only [Except.error.injEq, Prod.mk.injEq] at h
        rw [← h.2]
        exact this
      · next v hm =>
        split at h
        · next e2 ha =>
          simp only [Except.error.injEq, Prod.mk.injEq] at h
          rw [← h.2]
          unfold assignProp at ha
          split at ha
          · split at ha
            · cases ha
            · exact (Except.error.inj ha).symm
          · cases ha
        · exact baseMerge_error env rest _ _ sofar e h
end

theorem merge_error (env : Env) (object source sofar : JProps) (e : JSError)
    (h : merge env object source = .error (sofar, e)) : e = invalidArrayLength :=
  baseMerge_error env source false object sofar e h

/-! ## The service functions -/

theorem format_two_digit_month (m : Nat) (hm : m < 100) :
    dateFns.addLeadingZeros (m : Int) 2 =
      String.mk [Nat.digitChar (m / 10), Nat.digitChar (m % 10)] := by
  simp only [dateFns.addLeadingZeros, Int.natAbs_ofNat]
  rw [padZeros_two m hm]

theorem format_four_digit_year (y : Nat) (hy : y < 10000) :
    dateFns.addLeadingZeros (y : Int) 4 =
      String.mk [Nat.digitChar (y / 1000), Nat.digitChar (y / 100 % 10),
        Nat.digitChar (y / 10 % 10), Nat.digitChar (y % 10)] := by
  simp only [dateFns.addLeadingZeros, Int.natAbs_ofNat]
  rw [padZeros_four y hy]

/-- The computed fields, when the price is a number and the currency
formatting succeeds. -/
theorem getCnfigFromPayload_ok (env : Env) (requestPayload : JVal) (defaultConfig : JProps)
    (p : ℚ) (t : String) (hprice : requestPayload.get "price" = some (.num p))
    (hfmt : env.currencyFormat (defaultConfig.get "country") (defaultConfig.get "currency")
      (toFixed env p 2) = .ok t) :
    getCnfigFromPayload env requestPayload defaultConfig = .ok (JProps.ofList
      [("dateOfExposure", .str (dateFns.format env (some env.now) dateFns.ddmmyyyy)),
       ("dateOfSell", .str (dateFns.format env
          (((dateFns.parse env (requestPayload.get "date")).map
            (fun d => dateFns.addMonths env d (-1))).map (dateFns.lastDayOfMonth env))
          dateFns.ddmmyyyy)),
       ("documentDate", .str ("01/" ++ dateFns.format env (dateFns.parse env
          (requestPayload.get "date")) [.MM] ++ "/" ++ dateFns.format env (dateFns.parse env
          (requestPayload.get "date")) [.YYYY])),
       ("product", .object [("information",
          .str (toStr env (requestPayload.get "hours") ++ "h")),
          ("price", .str (toFixed env p 2))]),
       ("payment", .object [("toPayInNumbers", .str t)])]) := by
  simp only [getCnfigFromPayload, hprice, callToFixed, hfmt]

/-- The computed fields exist only when the price is a number and the currency
formatting succeeds. -/
theorem getCnfigFromPayload_inv (env : Env) (requestPayload : JVal)
    (defaultConfig computed : JProps)
    (h : getCnfigFromPayload env requestPayload defaultConfig = .ok computed) :
    ∃ (p : ℚ) (t : String), requestPayload.get "price" = some (.num p) ∧
      env.currencyFormat (defaultConfig.get "country") (defaultConfig.get "currency")
        (toFixed env p 2) = .ok t := by
  unfold getCnfigFromPayload at h
  simp only at h
  cases hp : requestPayload.get "price" with
  | none => simp [hp, callToFixed] at h
  | some v =>
    cases v with
    | num p =>
      simp only [hp, callToFixed] at h
      cases hf : env.currencyFormat (defaultConfig.get "country")
          (defaultConfig.get "currency") (toFixed env p 2) with
      | error e => simp [hf] at h
      | ok t => exact ⟨p, t, rfl, hf⟩
    | _ => simp [hp, callToFixed] at h

theorem digitValue_le (c : Char) (a : Nat) (h : digitValue c = some a) : a ≤ 9 := by
  unfold digitValue at h
  split at h
  · next hd =>
    cases h
    simp only [Char.isDigit, Bool.and_eq_true, decide_eq_true_eq] at hd
    have h2 : c.val ≤ 57 := hd.2
    have h3 : c.val.toNat ≤ 57 := by
      have := UInt32.le_def.mp h2
      simpa using this
    show c.val.toNat - 48 ≤ 9
    omega
  · cases h

theorem splitCalendar_year_le (s : String) (y m d : Nat)
    (h : dateFns.splitCalendar s = some (y, m, d)) : y ≤ 9999 := by
  unfold dateFns.splitCalendar at h
  split at h
  · split at h
    · next a b c d2 e f g h2 ha hb hc hd he hf hg hh =>
      have := digitValue_le _ _ ha
      have := digitValue_le _ _ hb
      have := digitValue_le _ _ hc
      have := digitValue_le _ _ hd
      simp only [Option.some.injEq, Prod.mk.injEq] at h
      omega
    · cases h
  · cases h

theorem cacheGet_cachePut_self (path : String) (m : JProps) :
    ∀ c : List (String × JProps), cacheGet (cachePut c path m) path = some m
  | [] => by simp [cachePut, cacheGet]
  | (p, old) :: rest => by
    by_cases h : p = path
    · simp [cachePut, cacheGet, h]
    · simp [cachePut, cacheGet, h, cacheGet_cachePut_self path m rest]

/-- The lookup finds what is stored, and records one lookup. -/
theorem getDefaultInvoiceConfig_stored (env : Env) (w : World) (requestPayload : JVal)
    (cfg : JProps) (h : storedConfig env w (configPath env requestPayload) = some cfg) :
    (getDefaultInvoiceConfig env w requestPayload).1 = .ok cfg ∧
    (getDefaultInvoiceConfig env w requestPayload).2.trace =
      w.trace ++ [Event.lookup (configPath env requestPayload)] := by
  unfold storedConfig at h
  cases hc : cacheGet w.cache (configPath env requestPayload) with
  | some m =>
    simp only [hc, Option.some.injEq] at h
    subst h
    simp [getDefaultInvoiceConfig, fileExists, require, hc]
  | none =>
    simp only [hc] at h
    simp [getDefaultInvoiceConfig, fileExists, require, hc, h, cacheGet_cachePut_self]

/-- The lookup fails with `InvoiceNotFound` when nothing is stored, and
changes nothing but the record of calls. -/
theorem getDefaultInvoiceConfig_not_stored (env : Env) (w : World) (requestPayload : JVal)
    (h : storedConfig env w (configPath env requestPayload) = none) :
    getDefaultInvoiceConfig env w requestPayload =
      (.error InvoiceNotFound,
        { w with trace := w.trace ++ [Event.lookup (configPath env requestPayload)] }) := by
  unfold storedConfig at h
  cases hc : cacheGet w.cache (configPath env requestPayload) with
  | some m => simp [hc] at h
  | none =>
    simp only [hc] at h
    simp [getDefaultInvoiceConfig, fileExists, require, hc, h]

/-- The resolved context is the merge of the stored configuration, the
computed fields and the request, in this order. -/
theorem getInvoiceConfig_ok (env : Env) (w : World) (requestPayload : JVal)
    (cfg computed merged ctx : JProps)
    (hstored : storedConfig env w (configPath env requestPayload) = some cfg)
    (hcomp : getCnfigFromPayload env requestPayload cfg = .ok computed)
    (h1 : merge env cfg computed = .ok merged)
    (h2 : merge env merged requestPayload.props = .ok ctx) :
    (getInvoiceConfig env w requestPayload).1 = .ok ctx := by
  have h := (getDefaultInvoiceConfig_stored env w requestPayload cfg hstored).1
  unfold getInvoiceConfig
  generalize getDefaultInvoiceConfig env w requestPayload = r at h
  obtain ⟨r1, r2⟩ := r
  simp only at h
  subst h
  simp only [hcomp, h1, h2]

/-- When the computed fields exist, the resolution gives a context or throws
the `RangeError` of an invalid array length. -/
theorem getInvoiceConfig_of_computed (env : Env) (w : World) (requestPayload : JVal)
    (cfg computed : JProps)
    (hstored : storedConfig env w (configPath env requestPayload) = some cfg)
    (hcomp : getCnfigFromPayload env requestPayload cfg = .ok computed) :
    (∃ ctx, (getInvoiceConfig env w requestPayload).1 = .ok ctx) ∨
      (getInvoiceConfig env w requestPayload).1 = .error invalidArrayLength := by
  have h := (getDefaultInvoiceConfig_stored env w requestPayload cfg hstored).1
  unfold getInvoiceConfig
  generalize getDefaultInvoiceConfig env w requestPayload = r at h
  obtain ⟨r1, r2⟩ := r
  simp only at h
  subst h
  simp only [hcomp]
  cases h1 : merge env cfg computed with
  | error x =>
    obtain ⟨sofar, e⟩ := x
    right
    simp only [merge_error env cfg computed sofar e h1]
  | ok merged =>
    simp only
    cases h2 : merge env merged requestPayload.props with
    | error x =>
      obtain ⟨sofar, e⟩ := x
      right
      simp only [merge_error env merged _ sofar e h2]
    | ok ctx =>
      left
      exact ⟨ctx, rfl⟩

/-- A failure of the field computation is the failure of the resolution. -/
theorem getInvoiceConfig_error (env : Env) (w : World) (requestPayload : JVal)
    (cfg : JProps) (e : JSError)
    (hstored : storedConfig env w (configPath env requestPayload) = some cfg)
    (hcomp : getCnfigFromPayload env requestPayload cfg = .error e) :
    (getInvoiceConfig env w requestPayload).1 = .error e := by
  have h := (getDefaultInvoiceConfig_stored env w requestPayload cfg hstored).1
  unfold getInvoiceConfig
  generalize getDefaultInvoiceConfig env w requestPayload = r at h
  obtain ⟨r1, r2⟩ := r
  simp only at h
  subst h
  simp only [hcomp]

/-- The field computation never fails with `InvoiceNotFound`. -/
theorem getCnfigFromPayload_ne_notFound (env : Env) (requestPayload : JVal)
    (cfg : JProps) :
    getCnfigFromPayload env requestPayload cfg ≠ .error InvoiceNotFound := by
  unfold getCnfigFromPayload
  simp only
  cases h1 : callToFixed env (requestPayload.get "price") 2 with
  | error e =>
    have he : e.name = "TypeError" := by
      unfold callToFixed at h1
      split at h1 <;> cases h1 <;> rfl
    simp only
    intro h
    have hn := congrArg JSError.name (Except.error.inj h)
    rw [he] at hn
    exact absurd hn (by decide)
  | ok price =>
    simp only
    cases h2 : env.currencyFormat (cfg.get "country") (cfg.get "currency") price with
    | error e =>
      simp only
      intro h
      have hn := congrArg (fun r => match r with
        | Except.error x => x.name
        | Except.ok _ => "") h
      cases e <;> simp [IntlError.toError, InvoiceNotFound] at hn
    | ok t => simp

theorem configPath_eq (env : Env) (requestPayload : JVal) (buyerId sellerId : String)
    (hb : requestPayload.get "buyerId" = some (.str buyerId))
    (hs : requestPayload.get "sellerId" = some (.str sellerId)) :
    configPath env requestPayload = "./config/invoices/" ++ (sellerId ++ "@" ++ buyerId) := by
  simp [configPath, hb, hs, toStr]

/-- C3: for every buyer and seller, `getInvoiceConfig` raises `InvoiceNotFound`
if and only if no configuration is stored under the tag `sellerId@buyerId`;
when it raises, the only call made is the lookup (the field computation is not
run and the cache is unchanged); and when a configuration is stored under the
tag, it does not raise `InvoiceNotFound`. -/
theorem invoiceNotFound_iff_not_stored (env : Env) (w : World) (requestPayload : JVal)
    (buyerId sellerId : String)
    (hb : requestPayload.get "buyerId" = some (.str buyerId))
    (hs : requestPayload.get "sellerId" = some (.str sellerId)) :
    ((getInvoiceConfig env w requestPayload).1 = .error InvoiceNotFound ↔
      storedConfig env w ("./config/invoices/" ++ (sellerId ++ "@" ++ buyerId)) = none) ∧
    ((getInvoiceConfig env w requestPayload).1 = .error InvoiceNotFound →
      (getInvoiceConfig env w requestPayload).2.trace =
        w.trace ++ [Event.lookup ("./config/invoices/" ++ (sellerId ++ "@" ++ buyerId))] ∧
      (getInvoiceConfig env w requestPayload).2.cache = w.cache) ∧
    (∀ cfg, storedConfig env w ("./config/invoices/" ++ (sellerId ++ "@" ++ buyerId)) =
        some cfg → (getInvoiceConfig env w requestPayload).1 ≠ .error InvoiceNotFound) := by
  rw [← configPath_eq env requestPayload buyerId sellerId hb hs]
  have hstoredCase : ∀ cfg, storedConfig env w (configPath env requestPayload) = some cfg →
      (getInvoiceConfig env w requestPayload).1 ≠ .error InvoiceNotFound := by
    intro cfg hcfg
    cases hc : getCnfigFromPayload env requestPayload cfg with
    | error e =>
      rw [getInvoiceConfig_error env w requestPayload cfg e hcfg hc]
      intro h
      apply getCnfigFromPayload_ne_notFound env requestPayload cfg
      rw [hc, h]
    | ok computed =>
      rcases getInvoiceConfig_of_computed env w requestPayload cfg computed hcfg hc with
        ⟨ctx, h⟩ | h
      · rw [h]
        simp
      · rw [h]
        intro h2
        exact absurd (congrArg JSError.name (Except.error.inj h2)) (by decide)
  have hnone : storedConfig env w (configPath env requestPayload) = none →
      getInvoiceConfig env w requestPayload = (.error InvoiceNotFound,
        { w with trace := w.trace ++ [Event.lookup (configPath env requestPayload)] }) := by
    intro h
    unfold getInvoiceConfig
    rw [getDefaultInvoiceConfig_not_stored env w requestPayload h]
  have hiff : (getInvoiceConfig env w requestPayload).1 = .error InvoiceNotFound ↔
      storedConfig env w (configPath env requestPayload) = none := by
    constructor
    · intro h
      cases hst : storedConfig env w (configPath env requestPayload) with
      | none => rfl
      | some cfg => exact absurd h (hstoredCase cfg hst)
    · intro h
      rw [hnone h]
  refine ⟨hiff, ?_, hstoredCase⟩
  intro h
  rw [hnone (hiff.mp h)]
  exact ⟨rfl, rfl⟩

/-- C3, for seller `s9` and buyer `b1`, which have no stored configuration. -/
theorem invoiceNotFound_iff_not_stored_witness :
    ((sampleRequest "s9" "2023-01-10" (.num 5) (.num 100) []).get "buyerId" =
        some (.str "b1") ∧
      (sampleRequest "s9" "2023-01-10" (.num 5) (.num 100) []).get "sellerId" =
        some (.str "s9")) ∧
    (getInvoiceConfig sampleEnv {} (sampleRequest "s9" "2023-01-10" (.num 5) (.num 100) [])).1 =
      .error InvoiceNotFound ∧
    (getInvoiceConfig sampleEnv {} (sampleRequest "s9" "2023-01-10" (.num 5) (.num 100) [])).2.trace
      = [Event.lookup "./config/invoices/s9@b1"] :=
  have h := invoiceNotFound_iff_not_stored sampleEnv {}
    (sampleRequest "s9" "2023-01-10" (.num 5) (.num 100) []) "b1" "s9" (by decide) (by decide)
  have hraise := h.1.mpr (by decide)
  ⟨⟨by decide, by decide⟩, hraise, (h.2.1 hraise).1⟩

/-! ## The HTTP contract -/

theorem validateKeys_error (env : Env) (body : JProps) (e : JSError) :
    ∀ sch : List JoiKey, validateKeys env body sch = .error e →
      ∃ message, e = validationError message
  | [], h => by simp [validateKeys] at h
  | k :: rest, h => by
    unfold validateKeys at h
    split at h
    · split at h
      · exact ⟨_, (Except.error.inj h).symm⟩
      · exact validateKeys_error env body e rest h
    · split at h
      · exact validateKeys_error env body e rest h
      · exact ⟨_, (Except.error.inj h).symm⟩

/-- Every error of the validator is a joi `ValidationError`. -/
theorem validator_error (env : Env) (body : JVal) (e : JSError)
    (h : validator env schema body = .error e) : ∃ message, e = validationError message := by
  unfold validator at h
  cases hv : joiValidate env body schema with
  | ok u => simp [hv] at h
  | error e2 =>
    simp only [hv] at h
    have he : e2 = e := Except.error.inj h
    subst he
    unfold joiValidate at hv
    split at hv
    · split at hv
      · next e3 hk =>
        have := Except.error.inj hv
        subst this
        exact validateKeys_error env _ _ schema hk
      · split at hv
        · exact ⟨_, (Except.error.inj hv).symm⟩
        · simp at hv
    · exact ⟨_, (Except.error.inj hv).symm⟩

/-- A body that lacks a required key of the schema is rejected. -/
theorem validateKeys_missing (env : Env) (body : JProps) :
    ∀ sch : List JoiKey, (∃ k ∈ sch, k.required = true ∧ body.get k.key = none) →
      ∃ e, validateKeys env body sch = .error e
  | [], h => by simp at h
  | k :: rest, h => by
    unfold validateKeys
    cases hk : body.get k.key with
    | none =>
      by_cases hr : k.required = true
      · simp [hr]
      · obtain ⟨k2, hmem, hreq, hnone⟩ := h
        simp only [List.mem_cons] at hmem
        rcases hmem with hmem | hmem
        · subst hmem; exact absurd hreq hr
        · simp only [hr]
          exact validateKeys_missing env body rest ⟨k2, hmem, hreq, hnone⟩
    | some v =>
      obtain ⟨k2, hmem, hreq, hnone⟩ := h
      simp only [List.mem_cons] at hmem
      rcases hmem with hmem | hmem
      · subst hmem; simp [hk] at hnone
      · by_cases ha : joiAccepts env k.type v = true
        · simp only [ha, if_true]
          exact validateKeys_missing env body rest ⟨k2, hmem, hreq, hnone⟩
        · simp [ha]

/-- C7: for every request body that fails the schema, the validator hands its
error to the error middleware and the route handler does not run: no lookup of
a configuration is recorded and the module cache is unchanged; the response is
HTTP 400 with the JSON body of `statusCode` 400, `error` (the name of the error,
`ValidationError`) and `message`. -/
theorem invalid_body_gets_400 (env : Env) (w : World) (body : JVal) (e : JSError)
    (h : validator env schema body = .error e) :
    wire (app env w body) = some ⟨.num 400,
      [("content-type", "application/json; charset=utf-8")],
      .json (.object [("statusCode", .num 400), ("error", .str e.name),
        ("message", .str e.message)])⟩ ∧
    e.name = "ValidationError" ∧
    (app env w body).2.trace = w.trace ∧ (app env w body).2.cache = w.cache := by
  obtain ⟨message, he⟩ := validator_error env body e h
  subst he
  have happ : app env w body = (errorMiddleware (validationError message) {}, w) := by
    simp only [app, h]
  rw [happ]
  exact ⟨rfl, rfl, rfl, rfl⟩

/-- C7, for the minimal request without its `price`. -/
theorem invalid_body_gets_400_witness :
    validator sampleEnv schema noPriceRequest =
      .error (validationError "child \"price\" fails because [\"price\" is required]") ∧
    wire (app sampleEnv {} noPriceRequest) = some ⟨.num 400,
      [("content-type", "application/json; charset=utf-8")],
      .json (.object [("statusCode", .num 400), ("error", .str "ValidationError"),
        ("message", .str "child \"price\" fails because [\"price\" is required]")])⟩ ∧
    (app sampleEnv {} noPriceRequest).2.trace = [] :=
  have h := invalid_body_gets_400 sampleEnv {} noPriceRequest
    (validationError "child \"price\" fails because [\"price\" is required]") (by decide)
  ⟨by decide, h.1, h.2.2.1⟩

/-- What the route handler answers when the resolution fails: the error object
as JSON, sent before the status is set. -/
theorem postHandler_error_response (env : Env) (w : World) (body : JVal) (e : JSError)
    (hv : validator env schema body = .ok ())
    (he : (getInvoiceConfig env w body).1 = .error e) :
    wire (app env w body) = some ⟨.num 200,
      [("content-type", "application/json; charset=utf-8")],
      .json (.obj false e.enumerable)⟩ := by
  simp only [app, hv, postHandler]
  generalize getInvoiceConfig env w body = r at he
  obtain ⟨r1, r2⟩ := r
  simp only at he
  subst he
  rfl

/-- What the route handler answers when the PDF is produced. -/
theorem postHandler_success_response (env : Env) (w : World) (body : JVal)
    (ctx : JProps) (bytes : String)
    (hv : validator env schema body = .ok ())
    (hc : (getInvoiceConfig env w body).1 = .ok ctx)
    (hr : env.renderPdf ctx = .ok bytes) :
    wire (app env w body) = some ⟨.num 200,
      [("content-disposition", "inline: filename=\"invoice.pdf\""),
        ("content-type", "application/pdf")], .stream bytes⟩ := by
  simp only [app, hv, postHandler]
  generalize getInvoiceConfig env w body = r at hc
  obtain ⟨r1, r2⟩ := r
  simp only at hc
  subst hc
  simp only [hr]
  rfl

/-- C6: a validated request whose seller has no stored configuration makes
`getInvoiceConfig` raise `InvoiceNotFound`, and the response that goes out has
status 200 and the body of an empty JSON object: the handler sends the error
before it sets the status, and the error middleware is not reached. -/
theorem handler_error_sent_with_status_200 :
    validator sampleEnv schema unknownSellerRequest = .ok () ∧
    (getInvoiceConfig sampleEnv {} unknownSellerRequest).1 = .error InvoiceNotFound ∧
    wire (app sampleEnv {} unknownSellerRequest) = some ⟨.num 200,
      [("content-type", "application/json; charset=utf-8")], .json (.object [])⟩ ∧
    wire (app sampleEnv {} unknownSellerRequest) ≠ some ⟨.num 500,
      [("content-type", "application/json; charset=utf-8")],
      .json (.object [("statusCode", .num 500), ("error", .str "Error"),
        ("message", .str "Invoice template not found")])⟩ := by
  decide

/-- C8: on the successful minimal request the response has `Content-Type`
`application/pdf`, and its `Content-Disposition` is `inline: filename="invoice.pdf"`,
with a colon, not `inline; filename="invoice.pdf"`. -/
theorem content_disposition_has_colon :
    wire (app sampleEnv {} minimalRequest) = some ⟨.num 200,
      [("content-disposition", "inline: filename=\"invoice.pdf\""),
        ("content-type", "application/pdf")], .stream "%PDF-1.4"⟩ ∧
    (wire (app sampleEnv {} minimalRequest)).map
      (fun sent => getHeader sent.headers "Content-Type") = some (some "application/pdf") ∧
    (wire (app sampleEnv {} minimalRequest)).map
      (fun sent => getHeader sent.headers "Content-Disposition") ≠
        some (some "inline; filename=\"invoice.pdf\"") := by
  decide

/-- C2: the first request for seller `s1` carries an `invoice` block.  Before
it, the lookup returns the stored configuration; after it, the lookup returns
the merged context of that request, and the next request, which has no
`invoice` block, is resolved with the `invoice` block of the first. -/
theorem getInvoiceConfig_mutates_stored_config :
    (getDefaultInvoiceConfig sampleEnv {} firstRequest).1 = .ok plainConfig ∧
    (getDefaultInvoiceConfig sampleEnv (getInvoiceConfig sampleEnv {} firstRequest).2
      firstRequest).1 ≠ .ok plainConfig ∧
    (getDefaultInvoiceConfig sampleEnv (getInvoiceConfig sampleEnv {} firstRequest).2
      firstRequest).1 = (getInvoiceConfig sampleEnv {} firstRequest).1 ∧
    minimalRequest.get "invoice" = none ∧
    (match (getInvoiceConfig sampleEnv (getInvoiceConfig sampleEnv {} firstRequest).2
        minimalRequest).1 with
      | .ok ctx => ctx.getPath ["invoice", "note"]
      | .error _ => none) = some (.str "first") := by
  decide

/-! ## Merge precedence in `getInvoiceConfig` -/

/-- The computed fields are ordinary data without repeated names. -/
theorem getCnfigFromPayload_ordinary (env : Env) (requestPayload : JVal)
    (defaultConfig computed : JProps)
    (h : getCnfigFromPayload env requestPayload defaultConfig = .ok computed) :
    computed.wf = true ∧ computed.ordinary = true := by
  obtain ⟨p, t, hprice, hfmt⟩ :=
    getCnfigFromPayload_inv env requestPayload defaultConfig computed h
  rw [getCnfigFromPayload_ok env requestPayload defaultConfig p t hprice hfmt] at h
  rw [← Except.ok.inj h]
  exact ⟨rfl, rfl⟩

/-- C1: `getInvoiceConfig` returns the deep merge of the default configuration,
then the computed fields, then the request, and in that merge, for every
default configuration, computed-field object and request in which no object has
a property named `length` or `__proto__` (`ordinary`): the two merges throw
nothing; a scalar at a key path of the request is at that path in the result; a
scalar at a key path of the computed fields is at that path in the result when
the request holds nothing there and only plain objects, or nothing, above it; a
value at a key path of the default configuration stays when the computed fields
and the request hold nothing there and only plain objects, or nothing, above
it.  The sources are JavaScript objects: no object has two properties of one
name (`wf`). -/
theorem resolve_precedence (env : Env) (defaultConfig computed request : JProps)
    (hd : defaultConfig.ordinary = true)
    (hc : computed.wf = true ∧ computed.ordinary = true)
    (hr : request.wf = true ∧ request.ordinary = true) :
    ∃ merged ctx : JProps, merge env defaultConfig computed = .ok merged ∧
      merge env merged request = .ok ctx ∧
      (∀ (w : World) (requestPayload : JVal),
        storedConfig env w (configPath env requestPayload) = some defaultConfig →
        getCnfigFromPayload env requestPayload defaultConfig = .ok computed →
        requestPayload.props = request →
        (getInvoiceConfig env w requestPayload).1 = .ok ctx) ∧
      (∀ (p : List String) (v : JVal), v.isScalar = true → request.getPath p = some v →
        ctx.getPath p = some v) ∧
      (∀ (p : List String) (v : JVal), v.isScalar = true → computed.getPath p = some v →
        request.getPath p = none → request.plainAbove p = true →
        ctx.getPath p = some v) ∧
      (∀ (p : List String) (v : JVal), defaultConfig.getPath p = some v →
        computed.getPath p = none → computed.plainAbove p = true →
        request.getPath p = none → request.plainAbove p = true →
        ctx.getPath p = some v) := by
  obtain ⟨h1, ho1⟩ := merge_of_ordinary env defaultConfig computed hd hc.2
  obtain ⟨h2, _⟩ := merge_of_ordinary env _ request ho1 hr.2
  refine ⟨_, _, h1, h2, ?_, ?_, ?_, ?_⟩
  · intro w requestPayload hstored hcomp hreq
    subst hreq
    exact getInvoiceConfig_ok env w requestPayload defaultConfig computed _ _ hstored hcomp
      h1 h2
  · intro p v hv h
    exact getPath_plainMerge_of_source v hv p request _ hr.1 h
  · intro p v hv h hn hp
    exact getPath_plainMerge_of_untouched v p request _ hr.1 hp hn
      (getPath_plainMerge_of_source v hv p computed defaultConfig hc.1 h)
  · intro p v h hcn hcp hn hp
    exact getPath_plainMerge_of_untouched v p request _ hr.1 hp hn
      (getPath_plainMerge_of_untouched v p computed defaultConfig hc.1 hcp hcn h)

/-- C1, at the example of the spec: default `currency` PLN, computed `currency`
USD and `product.information` 10h, request `currency` EUR. -/
theorem resolve_precedence_witness :
    ((JProps.ofList [("currency", .str "PLN")]).ordinary = true ∧
      ((JProps.ofList [("currency", .str "USD"),
        ("product", .object [("information", .str "10h")])]).wf = true ∧
       (JProps.ofList [("currency", .str "USD"),
        ("product", .object [("information", .str "10h")])]).ordinary = true) ∧
      ((JProps.ofList [("currency", .str "EUR")]).wf = true ∧
       (JProps.ofList [("currency", .str "EUR")]).ordinary = true)) ∧
    ∃ merged ctx : JProps,
      merge sampleEnv (.ofList [("currency", .str "PLN")])
        (.ofList [("currency", .str "USD"),
          ("product", .object [("information", .str "10h")])]) = .ok merged ∧
      merge sampleEnv merged (.ofList [("currency", .str "EUR")]) = .ok ctx ∧
      ctx.getPath ["currency"] = some (.str "EUR") ∧
      ctx.getPath ["product", "information"] = some (.str "10h") :=
  match resolve_precedence sampleEnv (.ofList [("currency", .str "PLN")])
    (.ofList [("currency", .str "USD"), ("product", .object [("information", .str "10h")])])
    (.ofList [("currency", .str "EUR")]) (by decide) ⟨by decide, by decide⟩
    ⟨by decide, by decide⟩ with
  | ⟨merged, ctx, h1, h2, _, ha, hb, _⟩ =>
    ⟨⟨by decide, ⟨by decide, by decide⟩, ⟨by decide, by decide⟩⟩, merged, ctx, h1, h2,
      ha ["currency"] (.str "EUR") rfl (by decide),
      hb ["product", "information"] (.str "10h") rfl (by decide) (by decide) (by decide)⟩

/-- C1 as stated fails: the stored configuration of seller `s2` holds
`date.format`; neither the computed fields nor the request hold that key path,
and the resolved context does not hold it either, because the request holds the
string `date`. -/
theorem default_only_path_lost :
    storedConfig sampleEnv {} (configPath sampleEnv secondSellerRequest) = some richConfig ∧
    richConfig.getPath ["date", "format"] = some (.str "DD-MM-YYYY") ∧
    (match getCnfigFromPayload sampleEnv secondSellerRequest richConfig with
      | .ok computed => some (computed.getPath ["date", "format"])
      | .error _ => none) = some none ∧
    secondSellerRequest.props.getPath ["date", "format"] = none ∧
    (match (getInvoiceConfig sampleEnv {} secondSellerRequest).1 with
      | .ok ctx => some (ctx.getPath ["date", "format"], ctx.getPath ["date"])
      | .error _ => none) = some (none, some (.str "2023-01-10")) := by
  decide

/-- What the merge does with the names `length` and `__proto__`.  The stored
configuration of seller `s2` holds the array `invoice.items` of `a`, `b`, `c`.
A request whose `invoice.items` is the object of `length` 0 holds nothing at
`invoice.items.0` and only plain objects above it, and the resolved context has
lost the element: the array is cut to the length.  With the `length` -1 the
merge throws a `RangeError` and nothing is resolved.  So does the merge of a
request array into the stored object of seller `s3`, whose `length` is `2^32`.
And a request that holds the scalar 1 at `invoice.__proto__.x` is resolved to a
context that holds nothing there. -/
theorem length_and_proto_are_not_merged_as_data :
    richConfig.getPath ["invoice", "items", "0"] = some (.str "a") ∧
    (invoiceItemsRequest "s2" (.object [("length", .num 0)])).props.getPath
      ["invoice", "items", "0"] = none ∧
    (invoiceItemsRequest "s2" (.object [("length", .num 0)])).props.plainAbove
      ["invoice", "items", "0"] = true ∧
    (match (getInvoiceConfig sampleEnv {}
        (invoiceItemsRequest "s2" (.object [("length", .num 0)]))).1 with
      | .ok ctx => some (ctx.getPath ["invoice", "items", "0"], ctx.getPath ["invoice", "items"])
      | .error _ => none) = some (none, some (.array [])) ∧
    (getInvoiceConfig sampleEnv {}
      (invoiceItemsRequest "s2" (.object [("length", .num (-1))]))).1 =
        .error invalidArrayLength ∧
    (getInvoiceConfig sampleEnv {} (invoiceItemsRequest "s3" (.array [.str "z"]))).1 =
      .error invalidArrayLength ∧
    (sampleRequest "s1" "2023-01-10" (.num 5) (.num 100)
      [("invoice", .object [("__proto__", .object [("x", .num 1)])])]).props.getPath
        ["invoice", "__proto__", "x"] = some (.num 1) ∧
    (match (getInvoiceConfig sampleEnv {} (sampleRequest "s1" "2023-01-10" (.num 5) (.num 100)
        [("invoice", .object [("__proto__", .object [("x", .num 1)])])])).1 with
      | .ok ctx => some (ctx.getPath ["invoice", "__proto__", "x"], ctx.getPath ["invoice"])
      | .error _ => none) = some (none, some (.object [])) := by
  decide

/-- C5: an array of the request is merged index by index into an array that the
earlier sources hold at the same key path.  For every stored configuration and
request in which no object has a property named `length` or `__proto__`
(`ordinary`), and every key path at which the merge of the stored configuration
and the computed fields holds an array `A` and the request holds an array `B`
(with only plain objects above it in the request), the resolution succeeds and
the resolved context holds an array at that path; at every index where `B`
holds a scalar it has the element of `B`, and at every index that `B` lacks it
has what `A` has there.  The request is a JavaScript object: no object in it
has two properties of one name (`wf`). -/
theorem request_array_merged_by_index (env : Env) (w : World) (requestPayload : JVal)
    (cfg computed merged : JProps) (p : List String) (A B : JProps)
    (hcfg : cfg.ordinary = true)
    (hreq : requestPayload.props.wf = true ∧ requestPayload.props.ordinary = true)
    (hstored : storedConfig env w (configPath env requestPayload) = some cfg)
    (hcomp : getCnfigFromPayload env requestPayload cfg = .ok computed)
    (hmerged : merge env cfg computed = .ok merged)
    (hA : merged.getPath p = some (.obj true A))
    (hB : requestPayload.props.getPath p = some (.obj true B))
    (hplain : requestPayload.props.plainAbove p = true) :
    ∃ ctx R, (getInvoiceConfig env w requestPayload).1 = .ok ctx ∧
      ctx.getPath p = some (.obj true R) ∧
      (∀ (i : String) (n : Nat) (v : JVal), isArrayIndex i = some n → v.isScalar = true →
        B.get i = some v → R.get i = some v) ∧
      (∀ (i : String) (n : Nat), isArrayIndex i = some n → B.get i = none →
        R.get i = A.get i) := by
  obtain ⟨h1, ho1⟩ := merge_of_ordinary env cfg computed hcfg
    (getCnfigFromPayload_ordinary env requestPayload cfg computed hcomp).2
  have hm : merged = plainBaseMerge cfg computed := by
    rw [h1] at hmerged
    exact (Except.ok.inj hmerged).symm
  subst hm
  obtain ⟨h2, _⟩ := merge_of_ordinary env _ requestPayload.props ho1 hreq.2
  refine ⟨_, plainBaseMerge A B,
    getInvoiceConfig_ok env w requestPayload cfg computed _ _ hstored hcomp h1 h2, ?_, ?_, ?_⟩
  · exact getPath_plainMerge_of_both true true B A (fun _ => rfl) p _ _ hreq.1 hplain hB hA
  · intro i n v _ hv h
    have hBwf : B.wf = true := by
      have := JProps.wf_getPath _ p _ hreq.1 hB
      simpa [JVal.wf] using this
    rw [get_plainMerge i v B A hBwf h]
    cases v <;> simp_all [plainMergeValue, JVal.isScalar]
  · intro i n _ h
    exact get_plainMerge_of_get_none i B A h

/-- C5, for seller `s2`: the stored `invoice.items` is `[a, b, c]`, the request
sends `[z]`, and the resolved context holds `[z, b, c]`. -/
theorem request_array_merged_by_index_witness :
    (richConfig.ordinary = true ∧
      (itemsRequest.props.wf = true ∧ itemsRequest.props.ordinary = true) ∧
      storedConfig sampleEnv {} (configPath sampleEnv itemsRequest) = some richConfig ∧
      itemsRequest.props.getPath ["invoice", "items"] = some (.array [.str "z"]) ∧
      itemsRequest.props.plainAbove ["invoice", "items"] = true) ∧
    ∃ ctx R, (getInvoiceConfig sampleEnv {} itemsRequest).1 = .ok ctx ∧
      ctx.getPath ["invoice", "items"] = some (.obj true R) ∧
      R.get "0" = some (.str "z") ∧ R.get "1" = some (.str "b") ∧
      R.get "2" = some (.str "c") :=
  match request_array_merged_by_index sampleEnv {} itemsRequest richConfig
      (JProps.ofList
        [("dateOfExposure", .str "05-01-2024"), ("dateOfSell", .str "31-12-2022"),
          ("documentDate", .str "01/01/2023"),
          ("product", .object [("information", .str "5h"), ("price", .str "100.00")]),
          ("payment", .object [("toPayInNumbers", .str "100.00 PLN")])])
      (plainBaseMerge richConfig (JProps.ofList
        [("dateOfExposure", .str "05-01-2024"), ("dateOfSell", .str "31-12-2022"),
          ("documentDate", .str "01/01/2023"),
          ("product", .object [("information", .str "5h"), ("price", .str "100.00")]),
          ("payment", .object [("toPayInNumbers", .str "100.00 PLN")])]))
      ["invoice", "items"] (JProps.ofArrayFrom 0 [.str "a", .str "b", .str "c"])
      (JProps.ofArrayFrom 0 [.str "z"]) (by decide) ⟨by decide, by decide⟩ (by decide)
      (by decide) (by decide) (by decide) (by decide) (by decide) with
  | ⟨ctx, R, h1, h2, h3, h4⟩ =>
    ⟨⟨by decide, ⟨by decide, by decide⟩, by decide, by decide, by decide⟩, ctx, R, h1, h2,
      h3 "0" 0 (.str "z") (by decide) rfl (by decide),
      (h4 "1" 1 (by decide) (by decide)).trans (by decide),
      (h4 "2" 2 (by decide) (by decide)).trans (by decide)⟩

/-- C5 as stated fails: for seller `s2` the stored `invoice.items` is
`[a, b, c]`, the request sends the shorter `[z]`, and the resolved context
holds `[z, b, c]`, not the array of the request. -/
theorem request_array_not_replaced :
    richConfig.getPath ["invoice", "items"] = some (.array [.str "a", .str "b", .str "c"]) ∧
    itemsRequest.props.getPath ["invoice", "items"] = some (.array [.str "z"]) ∧
    (match (getInvoiceConfig sampleEnv {} itemsRequest).1 with
      | .ok ctx => ctx.getPath ["invoice", "items"]
      | .error _ => none) = some (.array [.str "z", .str "b", .str "c"]) ∧
    (match (getInvoiceConfig sampleEnv {} itemsRequest).1 with
      | .ok ctx => ctx.getPath ["invoice", "items"]
      | .error _ => none) ≠ some (.array [.str "z"]) := by
  decide

/-! ## The product block -/

theorem firstUnknownKey_none (sch : List JoiKey) :
    ∀ ks : List String, firstUnknownKey sch ks = none →
      ∀ k ∈ ks, (sch.map JoiKey.key).contains k = true
  | [], _, k, hk => by simp at hk
  | k1 :: rest, h, k, hk => by
    unfold firstUnknownKey at h
    by_cases h1 : (sch.map JoiKey.key).contains k1 = true
    · simp only [h1, if_true] at h
      simp only [List.mem_cons] at hk
      rcases hk with hk | hk
      · subst hk; exact h1
      · exact firstUnknownKey_none sch rest h k hk
    · rw [if_neg h1] at h
      cases h

/-- A body that passes the schema has no key outside the schema. -/
theorem validator_ok_get_none (env : Env) (body : JVal) (k : String)
    (h : validator env schema body = .ok ())
    (hk : (schema.map JoiKey.key).contains k = false) : body.props.get k = none := by
  unfold validator at h
  cases hv : joiValidate env body schema with
  | error e => simp [hv] at h
  | ok u =>
    unfold joiValidate at hv
    split at hv
    · next props =>
      split at hv
      · simp at hv
      · split at hv
        · simp at hv
        · next hnone =>
          apply JProps.get_eq_none_of_not_mem
          by_contra hc
          have hmem : k ∈ props.keys := by
            simpa using hc
          have := firstUnknownKey_none schema props.keys hnone k hmem
          rw [this] at hk
          exact Bool.noConfusion hk
    · simp at hv

theorem atLeast1e21_eq_false (p : ℚ) (h : |p| < 10 ^ 21) : atLeast1e21 p = false := by
  have hd : (0 : ℚ) < p.den := by exact_mod_cast p.den_pos
  rw [abs_eq_natAbs_div_den, div_lt_iff₀ hd] at h
  have h2 : p.num.natAbs < 10 ^ 21 * p.den := by exact_mod_cast h
  simp only [atLeast1e21, decide_eq_false_iff_not, not_le]
  exact h2

/-- Where C9 holds: for every request that passes the schema and whose `price`
is a JSON number below `10^21` in magnitude, with a stored configuration whose
country and currency the currency formatting accepts (no object of the stored
configuration or the request having a property named `length` or `__proto__`),
the resolution succeeds and the product block of the resolved context is the
computed one: `product.information` is the hours of the request as `ToString`
renders them, followed by `h`, and `product.price` is the price rounded to
hundredths as a decimal string with exactly two fractional digits. -/
theorem product_block_of_number_price (env : Env) (w : World) (requestPayload : JVal)
    (cfg : JProps) (price : ℚ) (t : String)
    (hvalid : validator env schema requestPayload = .ok ())
    (hprice : requestPayload.get "price" = some (.num price))
    (hbound : |price| < 10 ^ 21)
    (hstored : storedConfig env w (configPath env requestPayload) = some cfg)
    (hcfg : cfg.ordinary = true) (hreq : requestPayload.props.ordinary = true)
    (hfmt : env.currencyFormat (cfg.get "country") (cfg.get "currency")
      (toFixed env price 2) = .ok t) :
    ∃ ctx, (getInvoiceConfig env w requestPayload).1 = .ok ctx ∧
      ctx.getPath ["product", "information"] =
        some (.str (toStr env (requestPayload.get "hours") ++ "h")) ∧
      ctx.getPath ["product", "price"] = some (.str (Spec.twoDecimals price)) := by
  have hcomp := getCnfigFromPayload_ok env requestPayload cfg price t hprice hfmt
  obtain ⟨h1, ho1⟩ := merge_of_ordinary env cfg _ hcfg
    (getCnfigFromPayload_ordinary env requestPayload cfg _ hcomp).2
  obtain ⟨h2, _⟩ := merge_of_ordinary env _ requestPayload.props ho1 hreq
  have hres := getInvoiceConfig_ok env w requestPayload cfg _ _ _ hstored hcomp h1 h2
  have hnone : requestPayload.props.get "product" = none :=
    validator_ok_get_none env requestPayload "product" hvalid (by decide)
  have hfix := toFixed_two env price (atLeast1e21_eq_false price hbound)
  refine ⟨_, hres, ?_, ?_⟩
  · rw [getPath_plainMerge_of_head_none "product" _ _ _ hnone]
    apply getPath_plainMerge_of_source (.str _) rfl
    · simp [JProps.wf, JProps.ofList, JProps.keys, JVal.wf, JVal.object]
    · simp [JProps.getPath, JProps.get, JProps.ofList, JVal.object]
  · rw [getPath_plainMerge_of_head_none "product" _ _ _ hnone]
    apply getPath_plainMerge_of_source (.str _) rfl
    · simp [JProps.wf, JProps.ofList, JProps.keys, JVal.wf, JVal.object]
    · simp [JProps.getPath, JProps.get, JProps.ofList, JVal.object, hfix]

/-- The minimal request of the spec (hours 5, price 100) against the stored
configuration of country PL and currency PLN resolves to `5h` and `100.00`. -/
theorem product_block_of_minimal_request :
    ∃ ctx, (getInvoiceConfig sampleEnv {} minimalRequest).1 = .ok ctx ∧
      ctx.getPath ["product", "information"] = some (.str "5h") ∧
      ctx.getPath ["product", "price"] = some (.str "100.00") :=
  have hx : Spec.twoDecimals 100 = "100.00" :=
    (toFixed_two sampleEnv 100 (by decide)).symm.trans (by decide)
  hx ▸ product_block_of_number_price sampleEnv {} minimalRequest plainConfig 100 "100.00 PLN"
    (by decide) (by decide) (by norm_num) (by decide) (by decide) (by decide) (by decide)

/-- The price 12.5 is rendered as `12.50`. -/
theorem twoDecimals_example : Spec.twoDecimals (25 / 2) = "12.50" :=
  (toFixed_two sampleEnv (25 / 2) (by decide!)).symm.trans (by decide!)

/-- A price that is a string makes the field computation throw a `TypeError`,
whatever the platform and the stored configuration. -/
theorem getCnfigFromPayload_of_string_price (env : Env) (requestPayload : JVal)
    (defaultConfig : JProps) (s : String)
    (hprice : requestPayload.get "price" = some (.str s)) :
    getCnfigFromPayload env requestPayload defaultConfig = .error toFixedTypeError := by
  simp only [getCnfigFromPayload, hprice, callToFixed]

/-- C9: the minimal request of the spec with its price sent as the string `100`
passes the schema (joi converts a numeric string, and hands the converted value
only to its caller, who drops it), a configuration is stored for it, and the
resolution throws a `TypeError` from `price.toFixed`: there is no resolved
context and no product block, and the response is an empty JSON object with
status 200. -/
theorem string_price_passes_schema_and_throws :
    validator sampleEnv schema stringPriceRequest = .ok () ∧
    stringPriceRequest.get "price" = some (.str "100") ∧
    storedConfig sampleEnv {} (configPath sampleEnv stringPriceRequest) = some plainConfig ∧
    (getInvoiceConfig sampleEnv {} stringPriceRequest).1 = .error toFixedTypeError ∧
    wire (app sampleEnv {} stringPriceRequest) = some ⟨.num 200,
      [("content-type", "application/json; charset=utf-8")], .json (.object [])⟩ := by
  decide

/-! ## The computed dates -/

theorem get_dateOfSell (a b c : String) (d e : JVal) :
    (JProps.ofList [("dateOfExposure", .str a), ("dateOfSell", .str b),
      ("documentDate", .str c), ("product", d), ("payment", e)]).get "dateOfSell" =
      some (.str b) := rfl

theorem get_documentDate (a b c : String) (d e : JVal) :
    (JProps.ofList [("dateOfExposure", .str a), ("dateOfSell", .str b),
      ("documentDate", .str c), ("product", d), ("payment", e)]).get "documentDate" =
      some (.str c) := rfl

/-- C4: the computed `dateOfSell` is the last calendar day of the month before
the month in which the request date falls on the clocks of the process,
formatted `DD-MM-YYYY`.  First part: in a day-stable zone, for every
request date that date-fns reads as a time in month `m` of year `y` on the
clocks of the process, `dateOfSell` is the last day of the month before month
`m` of year `y` (December of the year before for January, the 29th in a leap
February), whatever the day of the month; the computed fields exist whenever
the price is a number and the currency formatting succeeds.  Second part: a
zone that keeps one offset from UTC is day-stable, and in it every valid
calendar date `YYYY-MM-DD` is read in its own month. -/
theorem dateOfSell_last_day_of_previous_month :
    (∀ (env : Env) (requestPayload : JVal) (defaultConfig : JProps) (y : Int) (m : Nat),
      env.dayStable → readsInMonth env (requestPayload.get "date") y m →
      (∀ computed, getCnfigFromPayload env requestPayload defaultConfig = .ok computed →
        computed.get "dateOfSell" = some (.str (dateFns.formatLocal
          (Spec.lastDayOfPreviousMonth y (m - 1)) dateFns.ddmmyyyy))) ∧
      (∀ (p : ℚ) (t : String), requestPayload.get "price" = some (.num p) →
        env.currencyFormat (defaultConfig.get "country") (defaultConfig.get "currency")
          (toFixed env p 2) = .ok t →
        ∃ computed, getCnfigFromPayload env requestPayload defaultConfig = .ok computed)) ∧
    (∀ (env : Env) (c : Int) (s : String) (y m d : Nat), env.fixedOffset c →
      dateFns.splitCalendar s = some (y, m, d) → 1 ≤ m ∧ m ≤ 12 →
      1 ≤ d ∧ d ≤ monthLength y (m - 1) →
      env.dayStable ∧ readsInMonth env (some (.str s)) y m) := by
  constructor
  · intro env requestPayload defaultConfig y m hst hread
    obtain ⟨t, hparse, hvalid, hy, hm⟩ := hread
    constructor
    · intro computed hres
      obtain ⟨p, tt, hprice, hfmt⟩ :=
        getCnfigFromPayload_inv env requestPayload defaultConfig computed hres
      rw [getCnfigFromPayload_ok env requestPayload defaultConfig p tt hprice hfmt] at hres
      rw [← Except.ok.inj hres, get_dateOfSell, hparse]
      simp only [Option.map_some', dateFns.format]
      rw [formatLocal_sameDay _ _ (local_lastDay_of_addMonths env hst t hvalid), hy]
      have e : (localTime env t).month = m - 1 := by omega
      rw [e]
    · intro p tt hprice hfmt
      exact ⟨_, getCnfigFromPayload_ok env requestPayload defaultConfig p tt hprice hfmt⟩
  · intro env c s y m d hfix hsplit hm hd
    exact ⟨fixedOffset_dayStable env c hfix,
      fixedOffset_readsInMonth env c s y m d hfix hsplit hm hd⟩

/-- C4, at the request date 2023-03-15 on clocks one hour ahead of UTC:
`dateOfSell` is `28-02-2023`; and on the clocks of Auckland at the request date
2006-10-02, the day after daylight saving time starts: `dateOfSell` is
`30-09-2006`. -/
theorem dateOfSell_last_day_of_previous_month_witness :
    ((plusOneEnv.fixedOffset 3600000 ∧
        dateFns.splitCalendar "2023-03-15" = some (2023, 3, 15) ∧
        (1 ≤ 3 ∧ 3 ≤ 12) ∧ (1 ≤ 15 ∧ 15 ≤ monthLength 2023 (3 - 1))) ∧
      (plusOneEnv.dayStable ∧ readsInMonth plusOneEnv (marchRequest.get "date") 2023 3) ∧
      ∃ computed, getCnfigFromPayload plusOneEnv marchRequest plainConfig = .ok computed ∧
        computed.get "dateOfSell" = some (.str "28-02-2023")) ∧
    ((aucklandEnv.dayStable ∧
        readsInMonth aucklandEnv (octoberSecondRequest.get "date") 2006 10) ∧
      ∃ computed,
        getCnfigFromPayload aucklandEnv octoberSecondRequest plainConfig = .ok computed ∧
        computed.get "dateOfSell" = some (.str "30-09-2006")) :=
  have hfix : plusOneEnv.fixedOffset 3600000 := ⟨fun _ _ => rfl, fun _ => rfl⟩
  have hzone := dateOfSell_last_day_of_previous_month.2 plusOneEnv 3600000 "2023-03-15"
    2023 3 15 hfix (by decide) (by decide) (by decide)
  have hread : readsInMonth plusOneEnv (marchRequest.get "date") 2023 3 := hzone.2
  have h := dateOfSell_last_day_of_previous_month.1 plusOneEnv marchRequest plainConfig
    2023 3 hzone.1 hread
  have hread2 : readsInMonth aucklandEnv (octoberSecondRequest.get "date") 2006 10 :=
    ⟨⟨2006, 9, 1, 39600000⟩, by decide, by decide, by decide, by decide⟩
  have h2 := dateOfSell_last_day_of_previous_month.1 aucklandEnv octoberSecondRequest
    plainConfig 2006 10 aucklandEnv_dayStable hread2
  match h.2 (25 / 2) "12.50 PLN" rfl (by with_unfolding_all rfl),
    h2.2 100 "100.00 PLN" (by decide) (by decide) with
  | ⟨computed, hc⟩, ⟨computed2, hc2⟩ =>
    ⟨⟨⟨hfix, by decide, by decide, by decide⟩, ⟨hzone.1, hread⟩, computed, hc,
        (h.1 computed hc).trans (by decide)⟩,
      ⟨aucklandEnv_dayStable, hread2⟩, computed2, hc2, (h2.1 computed2 hc2).trans (by decide)⟩

/-- C4 as stated fails.  On the clocks of Auckland the request date 2006-10-01,
which passes the schema, is read as 23:00 of 30 September (date-fns takes the
offset of the zone at the UTC midnight of the date, after daylight saving time
has started, and the local midnight is before its start), and `dateOfSell` is
`31-08-2006`, the last day of August, where the last day of the month before
October 2006 is `30-09-2006`. -/
theorem dateOfSell_of_august_for_october :
    validator aucklandEnv schema octoberRequest = .ok () ∧
    octoberRequest.get "date" = some (.str "2006-10-01") ∧
    (dateFns.parse aucklandEnv (octoberRequest.get "date")).map (localTime aucklandEnv) =
      some ⟨2006, 8, 30, 82800000⟩ ∧
    (match getCnfigFromPayload aucklandEnv octoberRequest plainConfig with
      | .ok computed => computed.get "dateOfSell"
      | .error _ => none) = some (.str "31-08-2006") ∧
    (match getCnfigFromPayload aucklandEnv octoberRequest plainConfig with
      | .ok computed => computed.get "dateOfSell"
      | .error _ => none) ≠ some (.str "30-09-2006") ∧
    dateFns.formatLocal (Spec.lastDayOfPreviousMonth 2006 9) dateFns.ddmmyyyy =
      "30-09-2006" := by
  decide

/-- Why C4 asks for a day-stable zone.  In a zone whose clocks skip 31 December
1994, date-fns reads the request date 1995-01-15 as the start of 15 January
1995, and `dateOfSell` is `01-01-1995`: the last day of December, set as a
local time, is a day the clocks do not have, and its time value falls on
1 January. -/
theorem dateOfSell_when_a_day_is_skipped :
    (dateFns.parse skippedDayEnv (januaryRequest.get "date")).map (localTime skippedDayEnv) =
      some ⟨1995, 0, 15, 0⟩ ∧
    (localTime skippedDayEnv (utcTime skippedDayEnv ⟨1994, 11, 31, 0⟩)).sameDay
      ⟨1994, 11, 31, 0⟩ = false ∧
    (match getCnfigFromPayload skippedDayEnv januaryRequest plainConfig with
      | .ok computed => computed.get "dateOfSell"
      | .error _ => none) = some (.str "01-01-1995") ∧
    dateFns.formatLocal (Spec.lastDayOfPreviousMonth 1995 0) dateFns.ddmmyyyy =
      "31-12-1994" := by
  decide

theorem format_month (env : Env) (t : JSDate) :
    dateFns.format env (some t) [.MM] =
      dateFns.addLeadingZeros (((localTime env t).month : Int) + 1) 2 := by
  simp [dateFns.format, dateFns.formatLocal, dateFns.formatToken, String.join]

theorem format_year (env : Env) (t : JSDate) :
    dateFns.format env (some t) [.YYYY] = dateFns.addLeadingZeros (localTime env t).year 4 := by
  simp [dateFns.format, dateFns.formatLocal, dateFns.formatToken, String.join]

/-- C10: the computed `documentDate` is the first of the month in which the
request date falls on the clocks of the process, whatever `now` is.  First
part: for every request date that date-fns reads as a time in month `m` of year
`y` (up to 9999) on the clocks of the process, and for every value `now` of the
clock, `documentDate` is the string `01/`, the two digits of `m`, `/`, the four
digits of `y`; the computed fields exist whenever the price is a number and the
currency formatting succeeds.  Second part: in a zone that keeps one offset
from UTC, every valid calendar date `YYYY-MM-DD` is read in its own month, and
its year is at most 9999. -/
theorem documentDate_first_of_request_month :
    (∀ (env : Env) (now : JSDate) (requestPayload : JVal) (defaultConfig : JProps)
        (y m : Nat),
      y ≤ 9999 → readsInMonth env (requestPayload.get "date") y m →
      (∀ computed,
        getCnfigFromPayload { env with now := now } requestPayload defaultConfig =
          .ok computed →
        computed.get "documentDate" = some (.str ("01/" ++
          String.mk [Nat.digitChar (m / 10), Nat.digitChar (m % 10)] ++ "/" ++
          String.mk [Nat.digitChar (y / 1000), Nat.digitChar (y / 100 % 10),
            Nat.digitChar (y / 10 % 10), Nat.digitChar (y % 10)]))) ∧
      (∀ (p : ℚ) (t : String), requestPayload.get "price" = some (.num p) →
        env.currencyFormat (defaultConfig.get "country") (defaultConfig.get "currency")
          (toFixed env p 2) = .ok t →
        ∃ computed,
          getCnfigFromPayload { env with now := now } requestPayload defaultConfig =
            .ok computed)) ∧
    (∀ (env : Env) (c : Int) (s : String) (y m d : Nat), env.fixedOffset c →
      dateFns.splitCalendar s = some (y, m, d) → 1 ≤ m ∧ m ≤ 12 →
      1 ≤ d ∧ d ≤ monthLength y (m - 1) →
      y ≤ 9999 ∧ readsInMonth env (some (.str s)) y m) := by
  constructor
  · intro env now requestPayload defaultConfig y m hy hread
    obtain ⟨t, hparse, hvalid, hyear, hm⟩ := hread
    have hparse2 : dateFns.parse { env with now := now } (requestPayload.get "date") =
        some t := hparse
    have hlocal : localTime { env with now := now } t = localTime env t := rfl
    have hv := (JSDate.valid_iff _).mp (localTime_valid env t hvalid)
    constructor
    · intro computed hres
      obtain ⟨p, tt, hprice, hfmt⟩ :=
        getCnfigFromPayload_inv { env with now := now } requestPayload defaultConfig computed
          hres
      rw [getCnfigFromPayload_ok { env with now := now } requestPayload defaultConfig p tt
        hprice hfmt] at hres
      rw [← Except.ok.inj hres, get_documentDate, hparse2, format_month, format_year, hlocal,
        hyear]
      have e : (((localTime env t).month : Int) + 1) = ((m : Nat) : Int) := by omega
      rw [e, format_two_digit_month m (by omega), format_four_digit_year y (by omega)]
    · intro p tt hprice hfmt
      exact ⟨_, getCnfigFromPayload_ok { env with now := now } requestPayload defaultConfig
        p tt hprice hfmt⟩
  · intro env c s y m d hfix hsplit hm hd
    exact ⟨splitCalendar_year_le s y m d hsplit,
      fixedOffset_readsInMonth env c s y m d hfix hsplit hm hd⟩

/-- C10, at the request date 2023-03-15 on clocks one hour ahead of UTC, with
the clock reading 31 December 1999: `documentDate` is `01/03/2023`; and on the
clocks of Auckland at the request date 2006-10-02, the day after daylight
saving time starts: `documentDate` is `01/10/2006`. -/
theorem documentDate_first_of_request_month_witness :
    ((plusOneEnv.fixedOffset 3600000 ∧
        dateFns.splitCalendar "2023-03-15" = some (2023, 3, 15) ∧
        (1 ≤ 3 ∧ 3 ≤ 12) ∧ (1 ≤ 15 ∧ 15 ≤ monthLength 2023 (3 - 1))) ∧
      (2023 ≤ 9999 ∧ readsInMonth plusOneEnv (marchRequest.get "date") 2023 3) ∧
      ∃ computed,
        getCnfigFromPayload { plusOneEnv with now := ⟨1999, 11, 31, 0⟩ } marchRequest
          plainConfig = .ok computed ∧
        computed.get "documentDate" = some (.str "01/03/2023")) ∧
    ((2006 ≤ 9999 ∧ readsInMonth aucklandEnv (octoberSecondRequest.get "date") 2006 10) ∧
      ∃ computed,
        getCnfigFromPayload { aucklandEnv with now := ⟨1999, 11, 31, 0⟩ }
          octoberSecondRequest plainConfig = .ok computed ∧
        computed.get "documentDate" = some (.str "01/10/2006")) :=
  have hfix : plusOneEnv.fixedOffset 3600000 := ⟨fun _ _ => rfl, fun _ => rfl⟩
  have hzone := documentDate_first_of_request_month.2 plusOneEnv 3600000 "2023-03-15"
    2023 3 15 hfix (by decide) (by decide) (by decide)
  have hread : readsInMonth plusOneEnv (marchRequest.get "date") 2023 3 := hzone.2
  have h := documentDate_first_of_request_month.1 plusOneEnv ⟨1999, 11, 31, 0⟩ marchRequest
    plainConfig 2023 3 hzone.1 hread
  have hread2 : readsInMonth aucklandEnv (octoberSecondRequest.get "date") 2006 10 :=
    ⟨⟨2006, 9, 1, 39600000⟩, by decide, by decide, by decide, by decide⟩
  have h2 := documentDate_first_of_request_month.1 aucklandEnv ⟨1999, 11, 31, 0⟩
    octoberSecondRequest plainConfig 2006 10 (by decide) hread2
  match h.2 (25 / 2) "12.50 PLN" rfl (by with_unfolding_all rfl),
    h2.2 100 "100.00 PLN" (by decide) (by decide) with
  | ⟨computed, hc⟩, ⟨computed2, hc2⟩ =>
    ⟨⟨⟨hfix, by decide, by decide, by decide⟩, ⟨hzone.1, hread⟩, computed, hc,
        h.1 computed hc⟩,
      ⟨by decide, hread2⟩, computed2, hc2, h2.1 computed2 hc2⟩

/-- C10 as stated fails.  On the clocks of Auckland the request date
2006-10-01, which passes the schema, is read as 23:00 of 30 September, and
`documentDate` is `01/09/2006`, the first of the month before.  And the request
date `2023-02-31`, which passes the schema as well, gives `01/03/2023` in
UTC. -/
theorem documentDate_of_another_month :
    validator aucklandEnv schema octoberRequest = .ok () ∧
    octoberRequest.get "date" = some (.str "2006-10-01") ∧
    (match getCnfigFromPayload aucklandEnv octoberRequest plainConfig with
      | .ok computed => computed.get "documentDate"
      | .error _ => none) = some (.str "01/09/2006") ∧
    (match getCnfigFromPayload aucklandEnv octoberRequest plainConfig with
      | .ok computed => computed.get "documentDate"
      | .error _ => none) ≠ some (.str "01/10/2006") ∧
    validator sampleEnv schema overflowRequest = .ok () ∧
    overflowRequest.get "date" = some (.str "2023-02-31") ∧
    (match getCnfigFromPayload sampleEnv overflowRequest plainConfig with
      | .ok computed => computed.get "documentDate"
      | .error _ => none) = some (.str "01/03/2023") ∧
    (match getCnfigFromPayload sampleEnv overflowRequest plainConfig with
      | .ok computed => computed.get "documentDate"
      | .error _ => none) ≠ some (.str "01/02/2023") := by
  decide

/-! ## The stored configuration after a call -/

/-- A successful resolution leaves its merged context as the configuration
that the next lookup of the same path finds. -/
theorem getInvoiceConfig_overwrites_stored (env : Env) (w : World) (requestPayload : JVal)
    (ctx : JProps) (h : (getInvoiceConfig env w requestPayload).1 = .ok ctx) :
    storedConfig env (getInvoiceConfig env w requestPayload).2
      (configPath env requestPayload) = some ctx := by
  unfold getInvoiceConfig at h ⊢
  generalize getDefaultInvoiceConfig env w requestPayload = r at h ⊢
  obtain ⟨r1, r2⟩ := r
  cases r1 with
  | error e => simp at h
  | ok cfg =>
    simp only at h ⊢
    cases hc : getCnfigFromPayload env requestPayload cfg with
    | error e => simp [hc] at h
    | ok computed =>
      simp only [hc] at h ⊢
      cases h1 : merge env cfg computed with
      | error x => simp [h1] at h
      | ok merged =>
        simp only [h1] at h ⊢
        cases h2 : merge env merged requestPayload.props with
        | error x => simp [h2] at h
        | ok resolved =>
          simp only [h2] at h ⊢
          have := Except.ok.inj h
          subst this
          simp [storedConfig, cacheGet_cachePut_self]

end InvoiceSvc
